import Mathlib

/-!
Verification of the ObjectProperty deserializer core
(`kobold/src/object_property/serialization.rs` and
`kobold/src/object_property/type_tag.rs`).

The deserializer is embedded shallowly: the Rust `Deserializer` state
(bit reader, options, type registry) becomes an explicit state record,
and every fallible operation returns an outcome (`ok` / `err` / `panicked`,
the last one modelling a Rust panic such as `Option::unwrap` on `None`)
paired with the updated state.  Machine integers are `Nat` / `Int` with
explicit `% 2 ^ w` where wrapping matters.  Rust `String`s are kept as
their UTF-8 byte lists.  The bit reader itself (`reader.rs`) and the type
registry structures (`type_list.rs`) are not part of the sources at hand;
they are modelled from the specification (sections 4.A and 3), marked
`Modelled from the spec:` below.

Recursive functions take an explicit fuel argument (structural recursion
on the fuel); running out of fuel yields the artificial outcome
`err .FuelExhausted`, which never occurs for sufficiently large fuel.
-/

namespace Kobold

/-! ## Error kinds (section 7 of the specification; the Rust code uses
`anyhow` string errors, classified here by their construction site). -/

inductive DeErr where
  | UnexpectedEof
  | CompressionSize
  | UnknownType
  | UnknownProperty
  | UnknownEnumVariant
  | NotSimple
  | PropertySize
  | ObjectSizeMismatch
  | MissingDelta
  | RecursionLimit
  | InvalidUtf8
  | FuelExhausted
deriving DecidableEq, Repr

/-! ## Bit reader.

Modelled from the spec: `reader.rs` (the `BitReader` type) is not among the
given sources.  Section 4.A describes a cursor over an immutable byte
buffer with LSB-first bit reads, byte realignment, little-endian
byte-aligned loads, and `len()` = bytes remaining.  Bytes are `Nat`s; only
their low 8 bits are ever consumed. -/

structure BitReader where
  data : List Nat
  pos : Nat
deriving DecidableEq, Repr

/-- Modelled from the spec: bit `k` of the stream, LSB-first within each
byte (section 4.A). -/
def bitAt (d : List Nat) (k : Nat) : Nat :=
  ((d.getD (k / 8) 0) >>> (k % 8)) &&& 1

/-- Modelled from the spec: the value of `n` stream bits starting at bit
position `p`, consumed least-significant-first. -/
def bitsVal (d : List Nat) (p : Nat) : Nat → Nat
  | 0 => 0
  | n + 1 => bitAt d p + 2 * bitsVal d (p + 1) n

/-- Modelled from the spec: little-endian value of `k` bytes starting at
byte index `i`. -/
def leVal (d : List Nat) (i : Nat) : Nat → Nat
  | 0 => 0
  | k + 1 => d.getD i 0 % 256 + 256 * leVal d (i + 1) k

/-- Modelled from the spec: `len()` — bytes remaining, counting a
partially consumed byte as remaining (the exhaustive walk's size
accounting "will also count padding bits to byte boundaries"). -/
def BitReader.len (r : BitReader) : Nat :=
  r.data.length - r.pos / 8

/-- Byte-aligned position obtained by discarding the remaining bits of a
partially consumed byte. -/
def alignUp (pos : Nat) : Nat :=
  ((pos + 7) / 8) * 8

/-! ## Serializer flags (`bitflags!` block in serialization.rs): a `u32`
bit set. -/

def STATEFUL_FLAGS : Nat := 1
def COMPACT_LENGTH_PREFIXES : Nat := 2
def HUMAN_READABLE_ENUMS : Nat := 4
def WITH_COMPRESSION : Nat := 8
def FORBID_DELTA_ENCODE : Nat := 16

/-- `SerializerFlags::contains`: all bits of `c` are present in `f`. -/
def flagsContain (f c : Nat) : Bool :=
  f &&& c == c

/-! ## Property flags and the type registry.

Modelled from the spec: `type_list.rs` is not among the given sources.
Section 3 gives `PropertyFlags` as a bit set of which the core only tests
membership of `TRANSMIT`, `PRIVILEGED_TRANSMIT`, `DEPRECATED`, `ENUM`,
`BITS` and `DELTA_ENCODE`; it is modelled as a record of those six
booleans.  `StringOrInt`, `Property`, `TypeDef` and `TypeList` follow the
field lists of section 3 and their uses in serialization.rs. -/

structure PropertyFlags where
  transmit : Bool := false
  privileged_transmit : Bool := false
  deprecated : Bool := false
  enum : Bool := false
  bits : Bool := false
  delta_encode : Bool := false
deriving DecidableEq, Repr

/-- `PropertyFlags::contains`: every flag set in the mask is set here. -/
def PropertyFlags.contains (a m : PropertyFlags) : Bool :=
  (!m.transmit || a.transmit) &&
  (!m.privileged_transmit || a.privileged_transmit) &&
  (!m.deprecated || a.deprecated) &&
  (!m.enum || a.enum) &&
  (!m.bits || a.bits) &&
  (!m.delta_encode || a.delta_encode)

inductive StringOrInt where
  | Str (s : List Char)
  | Int (v : Nat)
deriving DecidableEq, Repr

structure Property where
  name : List Char
  hash : Nat
  type : List Char
  flags : PropertyFlags
  dynamic : Bool
  enum_options : List (List Char × StringOrInt)
deriving DecidableEq, Repr

structure TypeDef where
  name : List Char
  properties : List Property
deriving DecidableEq, Repr

structure TypeList where
  list : List (Nat × TypeDef)
deriving DecidableEq, Repr

/-- `TypeList.get(hash)` — registry lookup by 32-bit hash. -/
def TypeList.get (t : TypeList) (hash : Nat) : Option TypeDef :=
  (t.list.find? (fun p => p.1 == hash)).map (·.2)

/-! ## Value tree (`Value` in the source; Rust `String`s are UTF-8 byte
lists, floats are raw bit patterns — `Float` holds `f64` bits, the
geometry leaves hold `f32` bits). -/

inductive Value where
  | Empty
  | Bool (b : Bool)
  | Signed (i : Int)
  | Unsigned (u : Nat)
  | Float (f64bits : Nat)
  | String (bytes : List Nat)
  | WString (u16s : List Nat)
  | Enum (bytes : List Nat)
  | Object (name : List Char) (inner : List (List Char × Value))
  | List (inner : List Value)
  | Color (b g r a : Nat)
  | Vec3 (x y z : Nat)
  | Quat (x y z w : Nat)
  | Euler (pitch roll yaw : Nat)
  | Mat3x3 (i j k : Nat × Nat × Nat)
  | Size (wh : Value × Value)
  | Point (xy : Value × Value)
  | Rect (inner : Value × Value × Value × Value)
deriving Repr

/-! ## Deserializer state and outcome monad.

`DeState` is the mutable part of the Rust `Deserializer` (`reader` and
`options`) together with the immutable registry reference `types`.
`manual_compression` is omitted: it is consumed only by `feed_data`,
which is outside the properties verified here. -/

structure DeState where
  reader : BitReader
  flags : Nat
  property_mask : PropertyFlags
  shallow : Bool
  recursion_limit : Nat
  types : TypeList
deriving Repr

/-- Outcome of one operation: success, an `anyhow` error (which leaves
the deserializer in its partially advanced state, as Rust `?` does), or a
panic (Rust `unwrap` on `None`). -/
inductive DOut (α : Type) where
  | ok (val : α)
  | err (e : DeErr)
  | panicked
deriving Repr

/-- State-passing computations over the deserializer; errors do not roll
the state back, mirroring in-place mutation of `self` in Rust. -/
def DeM (α : Type) : Type :=
  DeState → DOut α × DeState

instance : Monad DeM where
  pure a := fun s => (.ok a, s)
  bind m f := fun s =>
    match m s with
    | (.ok a, s') => f a s'
    | (.err e, s') => (.err e, s')
    | (.panicked, s') => (.panicked, s')

/-- Fail with an error, keeping the current state (`bail!`). -/
def derr (e : DeErr) : DeM α :=
  fun s => (.err e, s)

/-- Read the current serializer flags (`self.options.flags`). -/
def getFlags : DeM Nat :=
  fun s => (.ok s.flags, s)

/-- Read the shallow-mode switch (`self.options.shallow`). -/
def getShallow : DeM Bool :=
  fun s => (.ok s.shallow, s)

/-- Read the property mask (`self.options.property_mask`). -/
def getMask : DeM PropertyFlags :=
  fun s => (.ok s.property_mask, s)

/-- Read `self.reader.len()`. -/
def getLen : DeM Nat :=
  fun s => (.ok s.reader.len, s)

/-- Read the registry reference (`self.types`). -/
def getTypes : DeM TypeList :=
  fun s => (.ok s.types, s)

/-! ## Primitive reader operations lifted into `DeM`.

Modelled from the spec: section 4.A.  A failed read reports
`UnexpectedEof` without consuming (loads still perform their implicit
realignment first). -/

/-- `read_bit`. -/
def read_bit : DeM Bool :=
  fun s =>
    if s.reader.pos < 8 * s.reader.data.length then
      (.ok (bitAt s.reader.data s.reader.pos == 1),
       { s with reader := { s.reader with pos := s.reader.pos + 1 } })
    else
      (.err .UnexpectedEof, s)

/-- `read_value_bits(n)`, LSB-first. -/
def read_value_bits (n : Nat) : DeM Nat :=
  fun s =>
    if s.reader.pos + n ≤ 8 * s.reader.data.length then
      (.ok (bitsVal s.reader.data s.reader.pos n),
       { s with reader := { s.reader with pos := s.reader.pos + n } })
    else
      (.err .UnexpectedEof, s)

/-- `realign_to_byte()`. -/
def realign_to_byte : DeM Unit :=
  fun s =>
    (.ok (), { s with reader := { s.reader with pos := alignUp s.reader.pos } })

/-- Byte-aligned little-endian load of `k` bytes (the common body of
`load_u8` … `load_u64`); realigns implicitly, as the exhaustive walk's
size accounting requires. -/
def load_le (k : Nat) : DeM Nat :=
  fun s =>
    let p := alignUp s.reader.pos
    if p / 8 + k ≤ s.reader.data.length then
      (.ok (leVal s.reader.data (p / 8) k),
       { s with reader := { s.reader with pos := p + 8 * k } })
    else
      (.err .UnexpectedEof, { s with reader := { s.reader with pos := p } })

def load_u8 : DeM Nat := load_le 1
def load_u16 : DeM Nat := load_le 2
def load_u32 : DeM Nat := load_le 4
def load_u64 : DeM Nat := load_le 8

/-- `read_bytes(n)` (byte-aligned). -/
def read_bytes (n : Nat) : DeM (List Nat) :=
  fun s =>
    let p := alignUp s.reader.pos
    if p / 8 + n ≤ s.reader.data.length then
      (.ok ((s.reader.data.drop (p / 8)).take n),
       { s with reader := { s.reader with pos := p + 8 * n } })
    else
      (.err .UnexpectedEof, { s with reader := { s.reader with pos := p } })

/-- Two's-complement reinterpretation of a `w`-bit pattern. -/
def toSigned (w v : Nat) : Int :=
  if v < 2 ^ (w - 1) then (v : Int) else (v : Int) - 2 ^ w

/-- `u64` pattern reinterpreted as `i64`. -/
def toSigned64 (v : Nat) : Int :=
  toSigned 64 v

/-! ## Length codecs and strings (serialization.rs). -/

/-- `read_compact_length_prefix` (name shortened): one `is_large` bit,
then 31 or 7 value bits. -/
def read_compact_length : DeM Nat := do
  let is_large ← read_bit
  if is_large then read_value_bits 31 else read_value_bits 7

/-- `read_str_len` (from `impl_read_len!`): realign, then compact prefix
or nominal `load_u16`. -/
def read_str_len : DeM Nat := do
  realign_to_byte
  let fl ← getFlags
  if flagsContain fl COMPACT_LENGTH_PREFIXES then
    read_compact_length
  else
    load_u16

/-- `read_seq_len` (from `impl_read_len!`): realign, then compact prefix
or nominal `load_u32`. -/
def read_seq_len : DeM Nat := do
  realign_to_byte
  let fl ← getFlags
  if flagsContain fl COMPACT_LENGTH_PREFIXES then
    read_compact_length
  else
    load_u32

/-- `read_str`: length then raw bytes. -/
def read_str : DeM (List Nat) := do
  let len ← read_str_len
  read_bytes len

/-- Helper loop of `read_wstr`: `len` × `load_u16`. -/
def read_u16s : Nat → DeM (List Nat)
  | 0 => pure []
  | n + 1 => do
    let v ← load_u16
    let rest ← read_u16s n
    pure (v :: rest)

/-- `read_wstr`: length then that many `u16` code units. -/
def read_wstr : DeM (List Nat) := do
  let len ← read_str_len
  read_u16s len

/-- `deserialize_bits(n)`. -/
def deserialize_bits (n : Nat) : DeM Nat :=
  read_value_bits n

/-- `(!0u64) << n` as a 64-bit pattern (`(!0) << n` in the source, on a
value already reinterpreted as `i64`; the bit pattern is the same). -/
def u64NotShl (n : Nat) : Nat :=
  ((2 ^ 64 - 1) <<< n) % 2 ^ 64

/-- `deserialize_signed_bits(n)`: read `n` bits and sign-extend — if bit
`n-1` is set, OR the pattern with all-ones shifted left by `n`, then
reinterpret the 64-bit pattern as `i64`. -/
def deserialize_signed_bits (n : Nat) : DeM Int := do
  let v ← deserialize_bits n
  if v &&& (1 <<< (n - 1)) != 0 then
    pure (toSigned64 ((v ||| u64NotShl n) % 2 ^ 64))
  else
    pure (toSigned64 v)

/-- `deserialize_bool` = one bit. -/
def deserialize_bool : DeM Bool :=
  read_bit

def deserialize_u8 : DeM Nat := load_u8
def deserialize_u16 : DeM Nat := load_u16
def deserialize_u32 : DeM Nat := load_u32
def deserialize_u64 : DeM Nat := load_u64

/-- `deserialize_i8` (sign-extended to `i64` at the use sites). -/
def deserialize_i8 : DeM Int := do
  let v ← load_u8
  pure (toSigned 8 v)

def deserialize_i16 : DeM Int := do
  let v ← load_u16
  pure (toSigned 16 v)

def deserialize_i32 : DeM Int := do
  let v ← load_u32
  pure (toSigned 32 v)

/-- `deserialize_f32` — raw `f32` bits. -/
def deserialize_f32 : DeM Nat :=
  load_u32

/-- `deserialize_f64` — raw `f64` bits. -/
def deserialize_f64 : DeM Nat :=
  load_u64

/-- Exact bit-level `f32 as f64` conversion (sign, rebiased exponent,
widened mantissa; subnormals renormalized). -/
def f32ToF64 (b : Nat) : Nat :=
  let sign := b / 2 ^ 31 % 2
  let e := b / 2 ^ 23 % 256
  let m := b % 2 ^ 23
  if e = 255 then sign * 2 ^ 63 + 2047 * 2 ^ 52 + m * 2 ^ 29
  else if e = 0 then
    if m = 0 then sign * 2 ^ 63
    else
      let s := Nat.log2 m
      sign * 2 ^ 63 + (s + 874) * 2 ^ 52 + (m - 2 ^ s) * 2 ^ (52 - s)
  else sign * 2 ^ 63 + (e + 896) * 2 ^ 52 + m * 2 ^ 29

/-! ## Type-name utilities. -/

/-- `str::split_once(c)`: split at the first occurrence of `c`. -/
def splitOnce (c : Char) : List Char → Option (List Char × List Char)
  | [] => none
  | x :: xs =>
    if x = c then some ([], xs)
    else (splitOnce c xs).map (fun p => (x :: p.1, p.2))

/-- `str::rsplit_once(c)`: split at the last occurrence of `c`, returning
`(before, after)`. -/
def rsplitOnce (c : Char) (s : List Char) : Option (List Char × List Char) :=
  (splitOnce c s.reverse).map (fun p => (p.2.reverse, p.1.reverse))

/-- `extract_type_argument`: the text after the first `<` and before the
last `>` after it. -/
def extract_type_argument (ty : List Char) : Option (List Char) := do
  let generic ← (splitOnce '<' ty).map (·.2)
  let generic ← (rsplitOnce '>' generic).map (·.1)
  pure generic

/-! ## Enum / bitflag decoding. -/

/-- UTF-8 bytes of a registry string (`String::insert_str` composition
sites; registry names are `List Char` here, wire strings are bytes). -/
def charUtf8 (c : Nat) : List Nat :=
  if c < 0x80 then [c]
  else if c < 0x800 then [0xC0 + c / 64, 0x80 + c % 64]
  else if c < 0x10000 then [0xE0 + c / 4096, 0x80 + c / 64 % 64, 0x80 + c % 64]
  else [0xF0 + c / 262144, 0x80 + c / 4096 % 64, 0x80 + c / 64 % 64, 0x80 + c % 64]

def strBytes (s : List Char) : List Nat :=
  s.foldr (fun c acc => charUtf8 c.toNat ++ acc) []

/-- The bytes of `" | "`. -/
def sepBytes : List Nat := [32, 124, 32]

/-- The bytes of `"::"`. -/
def colonColon : List Nat := [58, 58]

/-- Standard UTF-8 validity (what `String::from_utf8` checks). -/
def utf8Cont (c : Nat) : Bool :=
  0x80 ≤ c && c ≤ 0xBF

def isValidUtf8 : List Nat → Bool
  | [] => true
  | c0 :: rest =>
    if c0 < 0x80 then isValidUtf8 rest
    else if c0 < 0xC2 then false
    else if c0 < 0xE0 then
      match rest with
      | c1 :: r => utf8Cont c1 && isValidUtf8 r
      | [] => false
    else if c0 < 0xF0 then
      match rest with
      | c1 :: c2 :: r =>
        (if c0 = 0xE0 then decide (0xA0 ≤ c1 && c1 ≤ 0xBF : Bool)
         else if c0 = 0xED then decide (0x80 ≤ c1 && c1 ≤ 0x9F : Bool)
         else utf8Cont c1) && utf8Cont c2 && isValidUtf8 r
      | _ => false
    else if c0 < 0xF5 then
      match rest with
      | c1 :: c2 :: c3 :: r =>
        (if c0 = 0xF0 then decide (0x90 ≤ c1 && c1 ≤ 0xBF : Bool)
         else if c0 = 0xF4 then decide (0x80 ≤ c1 && c1 ≤ 0x8F : Bool)
         else utf8Cont c1) && utf8Cont c2 && utf8Cont c3 && isValidUtf8 r
      | _ => false
    else false

/-- The variant lookup of `deserialize_enum_variant`: the first option
whose `StringOrInt::Int` equals `value`. -/
def findVariant (opts : List (List Char × StringOrInt)) (value : Nat) :
    Option (List Char × StringOrInt) :=
  opts.find? (fun p =>
    match p.2 with
    | .Int v => v == value
    | _ => false)

/-- One iteration of the integer-bitflag loop of
`deserialize_enum_variant`: push a `" | "` separator whenever a name has
been pushed before (regardless of the current bit), then, if bit `b` of
`value` is set, look up the variant whose integer equals the whole
`value` and append its name. -/
def bits_step (opts : List (List Char × StringOrInt)) (value : Nat)
    (st : Bool × List Nat) (b : Nat) : Except DeErr (Bool × List Nat) :=
  let bits := if !st.1 then st.2 ++ sepBytes else st.2
  if value &&& (1 <<< b) != 0 then
    match findVariant opts value with
    | some variant => .ok (false, bits ++ strBytes variant.1)
    | none => .error .UnknownEnumVariant
  else
    .ok (st.1, bits)

/-- The whole integer-bitflag loop: bit positions `0..32` in increasing
order. -/
def bits_compose (opts : List (List Char × StringOrInt)) (value : Nat) :
    Except DeErr (List Nat) := do
  let r ← (List.range 32).foldlM (bits_step opts value) (true, [])
  pure r.2

/-- `deserialize_enum_variant`. -/
def deserialize_enum_variant (property : Property) : DeM Value := do
  let fl ← getFlags
  if flagsContain fl HUMAN_READABLE_ENUMS then
    let raw ← read_str
    if isValidUtf8 raw then
      -- bitflags are already in the canonical format; enums get
      -- `value.insert_str(0, "::")` then the type name in front
      let value :=
        if property.flags.enum then strBytes property.type ++ colonColon ++ raw
        else raw
      pure (Value.Enum value)
    else
      derr .InvalidUtf8
  else
    let value ← deserialize_u32
    if property.flags.enum then
      match findVariant property.enum_options value with
      | some variant =>
        pure (Value.Enum (strBytes property.type ++ colonColon ++ strBytes variant.1))
      | none => derr .UnknownEnumVariant
    else
      match bits_compose property.enum_options value with
      | .ok bits => pure (Value.Enum bits)
      | .error e => derr e

/-- `PropertyClass::object_identity` (type_tag.rs): a `u32` hash; `0`
means no object; unknown hashes fail. -/
def object_identity : DeM (Option TypeDef) := do
  let hash ← load_u32
  if hash == 0 then
    pure none
  else do
    let types ← getTypes
    match types.get hash with
    | some t => pure (some t)
    | none => derr .UnknownType

/-- Ordered-map insertion for `BTreeMap<String, Value>`; keys are
compared lexicographically. -/
def charListLt : List Char → List Char → Bool
  | [], [] => false
  | [], _ :: _ => true
  | _ :: _, [] => false
  | a :: as, b :: bs =>
    if a < b then true
    else if b < a then false
    else charListLt as bs

def mapInsert (k : List Char) (v : Value) :
    List (List Char × Value) → List (List Char × Value)
  | [] => [(k, v)]
  | (k', v') :: rest =>
    if charListLt k k' then (k, v) :: (k', v') :: rest
    else if k = k' then (k, v) :: rest
    else (k', v') :: mapInsert k v rest

/-- `Option::ok_or_else` followed by `?`: unwrap or fail. -/
def okOrElse {α : Type} (o : Option α) (e : DeErr) : DeM α :=
  fun s =>
    match o with
    | some v => (.ok v, s)
    | none => (.err e, s)

/-! ## The recursive walker (`deserialize`, `deserialize_properties`,
`deserialize_property`, `deserialize_data`, `deserialize_list`,
`deserialize_simple_data`), as a mutual family structurally recursive on
fuel. -/

mutual

/-- `deserialize`: the `check_recursion!` prologue (wrapping `u8`
decrement of `options.recursion_limit`, failing when it reaches zero),
then the macro body (`deserialize_inner`), and — only on the success
path — the counter restore. -/
def deserialize : Nat → DeM Value
  | 0 => derr .FuelExhausted
  | fuel + 1 => fun s =>
    let s1 := { s with recursion_limit := (s.recursion_limit + 255) % 256 }
    if s1.recursion_limit = 0 then
      (.err .RecursionLimit, s1)
    else
      match deserialize_inner fuel s1 with
      | (.ok v, s2) => (.ok v, { s2 with recursion_limit := (s2.recursion_limit + 1) % 256 })
      | r => r

/-- The body of `deserialize` inside the `check_recursion!` wrapper: the
identity read, the optional `object_size` read (skipped and zero in
shallow mode), the property walk, and the `Value::Object` construction.
-/
def deserialize_inner : Nat → DeM Value
  | 0 => derr .FuelExhausted
  | fuel + 1 => do
    let type_def ← object_identity
    match type_def with
    | some td => do
      let sh ← getShallow
      let object_size ← if !sh then deserialize_u32 else pure 0
      let object ← deserialize_properties fuel object_size td
      pure (Value.Object td.name object)
    | none => pure Value.Empty

/-- `deserialize_properties`: shallow mode walks the masked,
non-deprecated schema properties in order; exhaustive mode runs the
size-driven discovery loop. -/
def deserialize_properties : Nat → Nat → TypeDef → DeM (List (List Char × Value))
  | 0, _, _ => derr .FuelExhausted
  | fuel + 1, object_size, type_def => do
    let sh ← getShallow
    if sh then do
      let mask ← getMask
      shallow_walk fuel
        (type_def.properties.filter
          (fun p => p.flags.contains mask && !p.flags.deprecated))
        []
    else
      exhaust_walk fuel object_size type_def []

/-- The shallow-mode loop body of `deserialize_properties`. -/
def shallow_walk : Nat → List Property → List (List Char × Value) →
    DeM (List (List Char × Value))
  | 0, _, _ => derr .FuelExhausted
  | _ + 1, [], object => pure object
  | fuel + 1, property :: rest, object => do
    let value ← deserialize_property fuel property
    shallow_walk fuel rest (mapInsert property.name value object)

/-- The exhaustive-mode `while object_size > 0` loop of
`deserialize_properties`: record the remaining length, read
`property_size` and `property_hash`, resolve the property (unknown hash
fails), decode the value, check the consumed size, subtract it from the
object size (underflow fails), insert, repeat. -/
def exhaust_walk : Nat → Nat → TypeDef → List (List Char × Value) →
    DeM (List (List Char × Value))
  | 0, _, _, _ => derr .FuelExhausted
  | fuel + 1, object_size, type_def, object =>
    if object_size = 0 then
      pure object
    else do
      let previous_buf_len ← getLen
      let property_size ← deserialize_u32
      let property_hash ← deserialize_u32
      let property ← okOrElse
        (type_def.properties.find? (fun p => p.hash == property_hash)) .UnknownProperty
      let value ← deserialize_property fuel property
      let new_len ← getLen
      let actual_size := previous_buf_len - new_len
      if actual_size ≠ property_size then
        derr .PropertySize
      else if property_size ≤ object_size then
        exhaust_walk fuel (object_size - property_size) type_def
          (mapInsert property.name value object)
      else
        derr .ObjectSizeMismatch

/-- `deserialize_property`: optional delta presence bit, then list or
plain data. -/
def deserialize_property : Nat → Property → DeM Value
  | 0, _ => derr .FuelExhausted
  | fuel + 1, property => do
    if property.flags.delta_encode then do
      let b ← deserialize_bool
      if !b then do
        let fl ← getFlags
        if flagsContain fl FORBID_DELTA_ENCODE then
          derr .MissingDelta
        else
          pure Value.Empty
      else
        if property.dynamic then deserialize_list fuel property
        else deserialize_data fuel property
    else
      if property.dynamic then deserialize_list fuel property
      else deserialize_data fuel property

/-- `deserialize_list`: sequence length, then the `check_recursion!`
wrapper around the element loop; `Value::List` is produced after the
counter restore on the success path. -/
def deserialize_list : Nat → Property → DeM Value
  | 0, _ => derr .FuelExhausted
  | fuel + 1, property => do
    let len ← read_seq_len
    fun s =>
      let s1 := { s with recursion_limit := (s.recursion_limit + 255) % 256 }
      if s1.recursion_limit = 0 then
        (.err .RecursionLimit, s1)
      else
        match list_elems fuel len property s1 with
        | (.ok items, s2) =>
          (.ok (Value.List items), { s2 with recursion_limit := (s2.recursion_limit + 1) % 256 })
        | (.err e, s2) => (.err e, s2)
        | (.panicked, s2) => (.panicked, s2)

/-- The element loop of `deserialize_list`. -/
def list_elems : Nat → Nat → Property → DeM (List Value)
  | 0, _, _ => derr .FuelExhausted
  | _ + 1, 0, _ => pure []
  | fuel + 1, n + 1, property => do
    let v ← deserialize_data fuel property
    let rest ← list_elems fuel n property
    pure (v :: rest)

/-- `deserialize_data`: enum/bitflag decoding when the property's flags
intersect `BITS | ENUM`; otherwise try simple data and, if that returns
an error (`or_else` catches every error, not only `NotSimple`), fall back
to a nested-object `deserialize`. -/
def deserialize_data : Nat → Property → DeM Value
  | 0, _ => derr .FuelExhausted
  | fuel + 1, property =>
    if property.flags.bits || property.flags.enum then
      deserialize_enum_variant property
    else fun s =>
      match deserialize_simple_data fuel property.type s with
      | (.ok v, s') => (.ok v, s')
      | (.err _, s') => deserialize fuel s'
      | (.panicked, s') => (.panicked, s')

/-- `deserialize_simple_data`: dispatch on the textual type name
(serialization.rs match order); parametric `class Size/Point/Rect`
`unwrap()` the extracted type argument — `None` panics. -/
def deserialize_simple_data : Nat → List Char → DeM Value
  | 0, _ => derr .FuelExhausted
  | fuel + 1, ty =>
    if ty = "bool".data then do
      let v ← deserialize_bool
      pure (Value.Bool v)
    else if ty = "char".data then do
      let v ← deserialize_i8
      pure (Value.Signed v)
    else if ty = "unsigned char".data then do
      let v ← deserialize_u8
      pure (Value.Unsigned v)
    else if ty = "short".data then do
      let v ← deserialize_i16
      pure (Value.Signed v)
    else if ty = "unsigned short".data ∨ ty = "wchar_t".data then do
      let v ← deserialize_u16
      pure (Value.Unsigned v)
    else if ty = "int".data ∨ ty = "long".data then do
      let v ← deserialize_i32
      pure (Value.Signed v)
    else if ty = "unsigned int".data ∨ ty = "unsigned long".data then do
      let v ← deserialize_u32
      pure (Value.Unsigned v)
    else if ty = "float".data then do
      let v ← deserialize_f32
      pure (Value.Float (f32ToF64 v))
    else if ty = "double".data then do
      let v ← deserialize_f64
      pure (Value.Float v)
    else if ty = "unsigned __int64".data ∨ ty = "gid".data ∨ ty = "union gid".data then do
      let v ← deserialize_u64
      pure (Value.Unsigned v)
    else if ty = "bi2".data then do
      let v ← deserialize_signed_bits 2
      pure (Value.Signed v)
    else if ty = "bui2".data then do
      let v ← deserialize_bits 2
      pure (Value.Unsigned v)
    else if ty = "bi3".data then do
      let v ← deserialize_signed_bits 3
      pure (Value.Signed v)
    else if ty = "bui3".data then do
      let v ← deserialize_bits 3
      pure (Value.Unsigned v)
    else if ty = "bi4".data then do
      let v ← deserialize_signed_bits 4
      pure (Value.Signed v)
    else if ty = "bui4".data then do
      let v ← deserialize_bits 4
      pure (Value.Unsigned v)
    else if ty = "bi5".data then do
      let v ← deserialize_signed_bits 5
      pure (Value.Signed v)
    else if ty = "bui5".data then do
      let v ← deserialize_bits 5
      pure (Value.Unsigned v)
    else if ty = "bi6".data then do
      let v ← deserialize_signed_bits 6
      pure (Value.Signed v)
    else if ty = "bui6".data then do
      let v ← deserialize_bits 6
      pure (Value.Unsigned v)
    else if ty = "bi7".data then do
      let v ← deserialize_signed_bits 7
      pure (Value.Signed v)
    else if ty = "bui7".data then do
      let v ← deserialize_bits 7
      pure (Value.Unsigned v)
    else if ty = "s24".data then do
      let v ← deserialize_signed_bits 24
      pure (Value.Signed v)
    else if ty = "u24".data then do
      let v ← deserialize_bits 24
      pure (Value.Unsigned v)
    else if ty = "std::string".data ∨ ty = "char*".data then do
      let v ← read_str
      pure (Value.String v)
    else if ty = "std::wstring".data ∨ ty = "wchar_t*".data then do
      let v ← read_wstr
      pure (Value.WString v)
    else if ty = "class Color".data then do
      let b ← deserialize_u8
      let g ← deserialize_u8
      let r ← deserialize_u8
      let a ← deserialize_u8
      pure (Value.Color b g r a)
    else if ty = "class Vector3D".data then do
      let x ← deserialize_f32
      let y ← deserialize_f32
      let z ← deserialize_f32
      pure (Value.Vec3 x y z)
    else if ty = "class Quaternion".data then do
      let x ← deserialize_f32
      let y ← deserialize_f32
      let z ← deserialize_f32
      let w ← deserialize_f32
      pure (Value.Quat x y z w)
    else if ty = "class Euler".data then do
      let pitch ← deserialize_f32
      let roll ← deserialize_f32
      let yaw ← deserialize_f32
      pure (Value.Euler pitch roll yaw)
    else if ty = "class Matrix3x3".data then do
      let i0 ← deserialize_f32
      let i1 ← deserialize_f32
      let i2 ← deserialize_f32
      let j0 ← deserialize_f32
      let j1 ← deserialize_f32
      let j2 ← deserialize_f32
      let k0 ← deserialize_f32
      let k1 ← deserialize_f32
      let k2 ← deserialize_f32
      pure (Value.Mat3x3 (i0, i1, i2) (j0, j1, j2) (k0, k1, k2))
    else if ("class Size".data).isPrefixOf ty then
      match extract_type_argument ty with
      | some ty_arg => size_decode fuel ty_arg
      | none => fun s => (.panicked, s)
    else if ("class Point".data).isPrefixOf ty then
      match extract_type_argument ty with
      | some ty_arg => point_decode fuel ty_arg
      | none => fun s => (.panicked, s)
    else if ("class Rect".data).isPrefixOf ty then
      match extract_type_argument ty with
      | some ty_arg => rect_decode fuel ty_arg
      | none => fun s => (.panicked, s)
    else
      derr .NotSimple

/-- The `class Size<T>` arm body: two recursive element decodes. -/
def size_decode : Nat → List Char → DeM Value
  | 0, _ => derr .FuelExhausted
  | fuel + 1, ty_arg => do
    let a ← deserialize_simple_data fuel ty_arg
    let b ← deserialize_simple_data fuel ty_arg
    pure (Value.Size (a, b))

/-- The `class Point<T>` arm body: two recursive element decodes. -/
def point_decode : Nat → List Char → DeM Value
  | 0, _ => derr .FuelExhausted
  | fuel + 1, ty_arg => do
    let a ← deserialize_simple_data fuel ty_arg
    let b ← deserialize_simple_data fuel ty_arg
    pure (Value.Point (a, b))

/-- The `class Rect<T>` arm body: four recursive element decodes in order
`(l, t, r, b)`. -/
def rect_decode : Nat → List Char → DeM Value
  | 0, _ => derr .FuelExhausted
  | fuel + 1, ty_arg => do
    let a ← deserialize_simple_data fuel ty_arg
    let b ← deserialize_simple_data fuel ty_arg
    let c ← deserialize_simple_data fuel ty_arg
    let d ← deserialize_simple_data fuel ty_arg
    pure (Value.Rect (a, b, c, d))

end

/-! ## Fixtures: concrete registries, properties and states used by the
closed evaluations below. -/

def emptyTypes : TypeList := ⟨[]⟩

/-- A state positioned at the start of `d`, with serializer flags `fl`,
recursion limit `lim`, exhaustive (non-shallow) mode and an empty
property mask. -/
def mkState (d : List Nat) (fl lim : Nat) (types : TypeList) : DeState :=
  { reader := { data := d, pos := 0 }, flags := fl, property_mask := {},
    shallow := false, recursion_limit := lim, types := types }

/-- A plain (non-enum, non-dynamic) property of a `u64` leaf type. -/
def pU64 : Property :=
  { name := "p".data, hash := 1, type := "unsigned __int64".data, flags := {},
    dynamic := false, enum_options := [] }

/-- A `BITS` property with a single variant `A = 1`. -/
def pBits : Property :=
  { name := "b".data, hash := 2, type := "EB".data, flags := { bits := true },
    dynamic := false, enum_options := [("A".data, .Int 1)] }

/-- A plain `unsigned int` property with hash 1. -/
def pUInt : Property :=
  { name := "n".data, hash := 1, type := "unsigned int".data, flags := {},
    dynamic := false, enum_options := [] }

/-- A plain `unsigned char` property with hash 2. -/
def pUChar : Property :=
  { name := "a".data, hash := 2, type := "unsigned char".data, flags := {},
    dynamic := false, enum_options := [] }

/-- A two-property type definition. -/
def tdTwo : TypeDef := { name := "T".data, properties := [pUInt, pUChar] }

/-- A registry binding hash 1 to `tdTwo`. -/
def typesTwo : TypeList := ⟨[(1, tdTwo)]⟩

/-- A `DELTA_ENCODE` property of an `unsigned int` leaf. -/
def pDelta : Property :=
  { name := "d".data, hash := 4, type := "unsigned int".data,
    flags := { delta_encode := true }, dynamic := false, enum_options := [] }

/-- A dynamic (list) property of an `unsigned int` element type. -/
def pDyn : Property :=
  { name := "l".data, hash := 5, type := "unsigned int".data, flags := {},
    dynamic := true, enum_options := [] }

/-- An `ENUM` property of type `EFoo` (no integer options needed in
human-readable mode). -/
def pEnumHR : Property :=
  { name := "e".data, hash := 6, type := "EFoo".data, flags := { enum := true },
    dynamic := false, enum_options := [] }

/-! ## Unfolding helpers for the outcome monad. -/

theorem bind_apply {α β : Type} (m : DeM α) (f : α → DeM β) (s : DeState) :
    (m >>= f) s =
      match m s with
      | (.ok a, s') => f a s'
      | (.err e, s') => (.err e, s')
      | (.panicked, s') => (.panicked, s') := rfl

theorem pure_apply {α : Type} (a : α) (s : DeState) :
    (pure a : DeM α) s = (.ok a, s) := rfl

theorem bind_ok {α β : Type} {m : DeM α} {f : α → DeM β} {s s1 : DeState} {a : α}
    (h : m s = (.ok a, s1)) : (m >>= f) s = f a s1 := by
  rw [bind_apply, h]

theorem bind_err {α β : Type} {m : DeM α} {f : α → DeM β} {s s1 : DeState} {e : DeErr}
    (h : m s = (.err e, s1)) : (m >>= f) s = ((.err e, s1) : DOut β × DeState) := by
  rw [bind_apply, h]

theorem bind_panic {α β : Type} {m : DeM α} {f : α → DeM β} {s s1 : DeState}
    (h : m s = (.panicked, s1)) : (m >>= f) s = ((.panicked, s1) : DOut β × DeState) := by
  rw [bind_apply, h]

/-! ## Reader-cursor invariant: every operation preserves the underlying
buffer and never moves the cursor backwards. -/

def Mono {α : Type} (m : DeM α) : Prop :=
  ∀ s, ((m s).2.reader.data = s.reader.data ∧ s.reader.pos ≤ (m s).2.reader.pos)

theorem mono_bind {α β : Type} {m : DeM α} {f : α → DeM β}
    (hm : Mono m) (hf : ∀ a, Mono (f a)) : Mono (m >>= f) := by
  intro s
  have h1 := hm s
  rw [bind_apply]
  rcases h : m s with ⟨out, s1⟩
  rw [h] at h1
  cases out with
  | ok a =>
    have h2 := hf a s1
    exact ⟨by rw [h2.1, h1.1], le_trans h1.2 h2.2⟩
  | err e => exact h1
  | panicked => exact h1

theorem mono_pure {α : Type} (a : α) : Mono (pure a : DeM α) :=
  fun _ => ⟨rfl, le_refl _⟩

theorem mono_derr {α : Type} (e : DeErr) : Mono (derr e : DeM α) :=
  fun _ => ⟨rfl, le_refl _⟩

theorem mono_ite {α : Type} {c : Prop} [Decidable c] {m1 m2 : DeM α}
    (h1 : Mono m1) (h2 : Mono m2) : Mono (if c then m1 else m2) := by
  split <;> assumption

theorem le_alignUp (pos : Nat) : pos ≤ alignUp pos := by
  unfold alignUp; omega

theorem mono_read_bit : Mono read_bit := by
  intro s
  unfold read_bit
  split <;> simp

theorem mono_read_value_bits (n : Nat) : Mono (read_value_bits n) := by
  intro s
  unfold read_value_bits
  split <;> simp

theorem mono_realign : Mono realign_to_byte := by
  intro s
  exact ⟨rfl, le_alignUp _⟩

theorem mono_load_le (k : Nat) : Mono (load_le k) := by
  intro s
  unfold load_le
  dsimp only
  split <;> exact ⟨rfl, le_trans (le_alignUp _) (by simp)⟩

theorem mono_read_bytes (n : Nat) : Mono (read_bytes n) := by
  intro s
  unfold read_bytes
  dsimp only
  split <;> exact ⟨rfl, le_trans (le_alignUp _) (by simp)⟩

theorem mono_getFlags : Mono getFlags := fun _ => ⟨rfl, le_refl _⟩
theorem mono_getShallow : Mono getShallow := fun _ => ⟨rfl, le_refl _⟩
theorem mono_getMask : Mono getMask := fun _ => ⟨rfl, le_refl _⟩
theorem mono_getLen : Mono getLen := fun _ => ⟨rfl, le_refl _⟩
theorem mono_getTypes : Mono getTypes := fun _ => ⟨rfl, le_refl _⟩

theorem mono_okOrElse {α : Type} (o : Option α) (e : DeErr) : Mono (okOrElse o e) := by
  intro s
  unfold okOrElse
  cases o <;> exact ⟨rfl, le_refl _⟩

theorem mono_read_compact_length : Mono read_compact_length := by
  unfold read_compact_length
  exact mono_bind mono_read_bit
    (fun b => mono_ite (mono_read_value_bits _) (mono_read_value_bits _))

theorem mono_read_str_len : Mono read_str_len := by
  unfold read_str_len
  exact mono_bind mono_realign (fun _ =>
    mono_bind mono_getFlags (fun _ =>
      mono_ite mono_read_compact_length (mono_load_le 2)))

theorem mono_read_seq_len : Mono read_seq_len := by
  unfold read_seq_len
  exact mono_bind mono_realign (fun _ =>
    mono_bind mono_getFlags (fun _ =>
      mono_ite mono_read_compact_length (mono_load_le 4)))

theorem mono_read_str : Mono read_str := by
  unfold read_str
  exact mono_bind mono_read_str_len (fun n => mono_read_bytes n)

theorem mono_read_u16s (n : Nat) : Mono (read_u16s n) := by
  induction n with
  | zero => exact mono_pure []
  | succ k ih =>
    unfold read_u16s
    exact mono_bind (mono_load_le 2) (fun _ => mono_bind ih (fun _ => mono_pure _))

theorem mono_read_wstr : Mono read_wstr := by
  unfold read_wstr
  exact mono_bind mono_read_str_len (fun n => mono_read_u16s n)

theorem mono_deserialize_bits (n : Nat) : Mono (deserialize_bits n) :=
  mono_read_value_bits n

theorem mono_deserialize_signed_bits (n : Nat) : Mono (deserialize_signed_bits n) := by
  unfold deserialize_signed_bits
  exact mono_bind (mono_deserialize_bits n)
    (fun v => mono_ite (mono_pure _) (mono_pure _))

theorem mono_deserialize_bool : Mono deserialize_bool :=
  mono_read_bit

theorem mono_deserialize_u8 : Mono deserialize_u8 := mono_load_le 1
theorem mono_deserialize_u16 : Mono deserialize_u16 := mono_load_le 2
theorem mono_deserialize_u32 : Mono deserialize_u32 := mono_load_le 4
theorem mono_deserialize_u64 : Mono deserialize_u64 := mono_load_le 8

theorem mono_deserialize_i8 : Mono deserialize_i8 :=
  mono_bind (mono_load_le 1) (fun _ => mono_pure _)
theorem mono_deserialize_i16 : Mono deserialize_i16 :=
  mono_bind (mono_load_le 2) (fun _ => mono_pure _)
theorem mono_deserialize_i32 : Mono deserialize_i32 :=
  mono_bind (mono_load_le 4) (fun _ => mono_pure _)
theorem mono_deserialize_f32 : Mono deserialize_f32 := mono_load_le 4
theorem mono_deserialize_f64 : Mono deserialize_f64 := mono_load_le 8

theorem mono_object_identity : Mono object_identity := by
  unfold object_identity
  refine mono_bind (mono_load_le 4) (fun h => ?_)
  refine mono_ite (mono_pure _) (mono_bind mono_getTypes (fun t => ?_))
  rcases t.get h with _ | td
  · exact mono_derr _
  · exact mono_pure _

theorem mono_deserialize_enum_variant (p : Property) :
    Mono (deserialize_enum_variant p) := by
  unfold deserialize_enum_variant
  refine mono_bind mono_getFlags (fun fl => ?_)
  refine mono_ite ?_ ?_
  · refine mono_bind mono_read_str (fun raw => ?_)
    exact mono_ite (mono_pure _) (mono_derr _)
  · refine mono_bind (mono_load_le 4) (fun v => ?_)
    refine mono_ite ?_ ?_
    · rcases findVariant p.enum_options v with _ | w
      · exact mono_derr _
      · exact mono_pure _
    · rcases bits_compose p.enum_options v with e | b
      · exact mono_derr _
      · exact mono_pure _

theorem mono_panicked {α : Type} : Mono (fun s => (.panicked, s) : DeM α) :=
  fun _ => ⟨rfl, le_refl _⟩

/-- Every function of the recursive walker family preserves the buffer
and never rewinds the cursor, at every fuel and on every outcome. -/
theorem family_mono : ∀ fuel,
    (∀ ty, Mono (deserialize_simple_data fuel ty)) ∧
    (∀ ty, Mono (size_decode fuel ty)) ∧
    (∀ ty, Mono (point_decode fuel ty)) ∧
    (∀ ty, Mono (rect_decode fuel ty)) ∧
    (∀ p, Mono (deserialize_data fuel p)) ∧
    (∀ n p, Mono (list_elems fuel n p)) ∧
    (∀ p, Mono (deserialize_list fuel p)) ∧
    (∀ p, Mono (deserialize_property fuel p)) ∧
    (∀ os td ob, Mono (exhaust_walk fuel os td ob)) ∧
    (∀ ps ob, Mono (shallow_walk fuel ps ob)) ∧
    (∀ os td, Mono (deserialize_properties fuel os td)) ∧
    Mono (deserialize_inner fuel) ∧
    Mono (deserialize fuel) := by
  intro fuel
  induction fuel with
  | zero =>
    refine ⟨fun _ => mono_derr _, fun _ => mono_derr _, fun _ => mono_derr _,
      fun _ => mono_derr _, fun _ => mono_derr _, fun _ _ => mono_derr _,
      fun _ => mono_derr _, fun _ => mono_derr _, fun _ _ _ => mono_derr _,
      fun _ _ => mono_derr _, fun _ _ => mono_derr _, mono_derr _, mono_derr _⟩
  | succ n ih =>
    obtain ⟨ihS, ihSize, ihPoint, ihRect, ihData, ihElems, ihList, ihProp,
      ihExh, ihShallow, ihProps, ihInner, ihDe⟩ := ih
    have hSimple : ∀ ty, Mono (deserialize_simple_data (n + 1) ty) := by
      intro ty
      simp only [deserialize_simple_data]
      refine mono_ite (mono_bind mono_deserialize_bool fun _ => mono_pure _) ?_
      refine mono_ite (mono_bind mono_deserialize_i8 fun _ => mono_pure _) ?_
      refine mono_ite (mono_bind mono_deserialize_u8 fun _ => mono_pure _) ?_
      refine mono_ite (mono_bind mono_deserialize_i16 fun _ => mono_pure _) ?_
      refine mono_ite (mono_bind mono_deserialize_u16 fun _ => mono_pure _) ?_
      refine mono_ite (mono_bind mono_deserialize_i32 fun _ => mono_pure _) ?_
      refine mono_ite (mono_bind mono_deserialize_u32 fun _ => mono_pure _) ?_
      refine mono_ite (mono_bind mono_deserialize_f32 fun _ => mono_pure _) ?_
      refine mono_ite (mono_bind mono_deserialize_f64 fun _ => mono_pure _) ?_
      refine mono_ite (mono_bind mono_deserialize_u64 fun _ => mono_pure _) ?_
      refine mono_ite (mono_bind (mono_deserialize_signed_bits 2) fun _ => mono_pure _) ?_
      refine mono_ite (mono_bind (mono_deserialize_bits 2) fun _ => mono_pure _) ?_
      refine mono_ite (mono_bind (mono_deserialize_signed_bits 3) fun _ => mono_pure _) ?_
      refine mono_ite (mono_bind (mono_deserialize_bits 3) fun _ => mono_pure _) ?_
      refine mono_ite (mono_bind (mono_deserialize_signed_bits 4) fun _ => mono_pure _) ?_
      refine mono_ite (mono_bind (mono_deserialize_bits 4) fun _ => mono_pure _) ?_
      refine mono_ite (mono_bind (mono_deserialize_signed_bits 5) fun _ => mono_pure _) ?_
      refine mono_ite (mono_bind (mono_deserialize_bits 5) fun _ => mono_pure _) ?_
      refine mono_ite (mono_bind (mono_deserialize_signed_bits 6) fun _ => mono_pure _) ?_
      refine mono_ite (mono_bind (mono_deserialize_bits 6) fun _ => mono_pure _) ?_
      refine mono_ite (mono_bind (mono_deserialize_signed_bits 7) fun _ => mono_pure _) ?_
      refine mono_ite (mono_bind (mono_deserialize_bits 7) fun _ => mono_pure _) ?_
      refine mono_ite (mono_bind (mono_deserialize_signed_bits 24) fun _ => mono_pure _) ?_
      refine mono_ite (mono_bind (mono_deserialize_bits 24) fun _ => mono_pure _) ?_
      refine mono_ite (mono_bind mono_read_str fun _ => mono_pure _) ?_
      refine mono_ite (mono_bind mono_read_wstr fun _ => mono_pure _) ?_
      refine mono_ite (mono_bind mono_deserialize_u8 fun _ => mono_bind mono_deserialize_u8
        fun _ => mono_bind mono_deserialize_u8 fun _ => mono_bind mono_deserialize_u8
        fun _ => mono_pure _) ?_
      refine mono_ite (mono_bind mono_deserialize_f32 fun _ => mono_bind mono_deserialize_f32
        fun _ => mono_bind mono_deserialize_f32 fun _ => mono_pure _) ?_
      refine mono_ite (mono_bind mono_deserialize_f32 fun _ => mono_bind mono_deserialize_f32
        fun _ => mono_bind mono_deserialize_f32 fun _ => mono_bind mono_deserialize_f32
        fun _ => mono_pure _) ?_
      refine mono_ite (mono_bind mono_deserialize_f32 fun _ => mono_bind mono_deserialize_f32
        fun _ => mono_bind mono_deserialize_f32 fun _ => mono_pure _) ?_
      refine mono_ite (mono_bind mono_deserialize_f32 fun _ => mono_bind mono_deserialize_f32
        fun _ => mono_bind mono_deserialize_f32 fun _ => mono_bind mono_deserialize_f32
        fun _ => mono_bind mono_deserialize_f32 fun _ => mono_bind mono_deserialize_f32
        fun _ => mono_bind mono_deserialize_f32 fun _ => mono_bind mono_deserialize_f32
        fun _ => mono_bind mono_deserialize_f32 fun _ => mono_pure _) ?_
      refine mono_ite ?_ (mono_ite ?_ (mono_ite ?_ (mono_derr _)))
      · rcases extract_type_argument ty with _ | a
        · exact mono_panicked
        · exact ihSize a
      · rcases extract_type_argument ty with _ | a
        · exact mono_panicked
        · exact ihPoint a
      · rcases extract_type_argument ty with _ | a
        · exact mono_panicked
        · exact ihRect a
    have hArm : ∀ ty, Mono (size_decode (n + 1) ty) ∧ Mono (point_decode (n + 1) ty) ∧
        Mono (rect_decode (n + 1) ty) := by
      intro ty
      refine ⟨?_, ?_, ?_⟩
      · simp only [size_decode]
        exact mono_bind (ihS _) fun _ => mono_bind (ihS _) fun _ => mono_pure _
      · simp only [point_decode]
        exact mono_bind (ihS _) fun _ => mono_bind (ihS _) fun _ => mono_pure _
      · simp only [rect_decode]
        exact mono_bind (ihS _) fun _ => mono_bind (ihS _) fun _ =>
          mono_bind (ihS _) fun _ => mono_bind (ihS _) fun _ => mono_pure _
    have hData : ∀ p, Mono (deserialize_data (n + 1) p) := by
      intro p
      simp only [deserialize_data]
      refine mono_ite (mono_deserialize_enum_variant p) ?_
      intro s
      rcases h : deserialize_simple_data n p.type s with ⟨out, s1⟩
      have h1 := ihS p.type s
      rw [h] at h1
      cases out with
      | ok v => simpa [h] using h1
      | err e =>
        have h2 := ihDe s1
        simp only [h]
        exact ⟨h2.1.trans h1.1, h1.2.trans h2.2⟩
      | panicked => simpa [h] using h1
    have hElems : ∀ len p, Mono (list_elems (n + 1) len p) := by
      intro len p
      cases len with
      | zero => exact fun _ => ⟨rfl, le_refl _⟩
      | succ k =>
        simp only [list_elems]
        exact mono_bind (ihData p) fun _ => mono_bind (ihElems k p) fun _ => mono_pure _
    have hList : ∀ p, Mono (deserialize_list (n + 1) p) := by
      intro p
      simp only [deserialize_list]
      refine mono_bind mono_read_seq_len fun len => ?_
      intro s
      dsimp only
      split
      · exact ⟨rfl, le_refl _⟩
      · rcases h : list_elems n len p
          { s with recursion_limit := (s.recursion_limit + 255) % 256 } with ⟨out, s2⟩
        have h1 := ihElems len p { s with recursion_limit := (s.recursion_limit + 255) % 256 }
        rw [h] at h1
        cases out with
        | ok items => exact h1
        | err e => exact h1
        | panicked => exact h1
    have hProp : ∀ p, Mono (deserialize_property (n + 1) p) := by
      intro p
      simp only [deserialize_property]
      refine mono_ite ?_ (mono_ite (ihList p) (ihData p))
      refine mono_bind mono_deserialize_bool fun b => ?_
      refine mono_ite ?_ (mono_ite (ihList p) (ihData p))
      exact mono_bind mono_getFlags fun fl => mono_ite (mono_derr _) (mono_pure _)
    have hExh : ∀ os td ob, Mono (exhaust_walk (n + 1) os td ob) := by
      intro os td ob
      simp only [exhaust_walk]
      refine mono_ite (mono_pure _) ?_
      refine mono_bind mono_getLen fun prev => ?_
      refine mono_bind mono_deserialize_u32 fun psz => ?_
      refine mono_bind mono_deserialize_u32 fun ph => ?_
      refine mono_bind (mono_okOrElse _ _) fun p => ?_
      refine mono_bind (ihProp p) fun v => ?_
      refine mono_bind mono_getLen fun nl => ?_
      exact mono_ite (mono_derr _) (mono_ite (ihExh _ td _) (mono_derr _))
    have hShallow : ∀ ps ob, Mono (shallow_walk (n + 1) ps ob) := by
      intro ps ob
      cases ps with
      | nil => exact fun _ => ⟨rfl, le_refl _⟩
      | cons p rest =>
        simp only [shallow_walk]
        exact mono_bind (ihProp p) fun v => ihShallow rest _
    have hProps : ∀ os td, Mono (deserialize_properties (n + 1) os td) := by
      intro os td
      simp only [deserialize_properties]
      refine mono_bind mono_getShallow fun sh => ?_
      refine mono_ite ?_ ?_
      · exact mono_bind mono_getMask fun mask => ihShallow _ []
      · exact ihExh os td []
    have hInner : Mono (deserialize_inner (n + 1)) := by
      simp only [deserialize_inner]
      refine mono_bind mono_object_identity fun td? => ?_
      rcases td? with _ | td
      · exact mono_pure _
      · refine mono_bind mono_getShallow fun sh => ?_
        refine mono_ite ?_ ?_
        · exact mono_bind mono_deserialize_u32 fun os =>
            mono_bind (ihProps os td) fun ob => mono_pure _
        · exact mono_bind (mono_pure 0) fun os =>
            mono_bind (ihProps os td) fun ob => mono_pure _
    have hDe : Mono (deserialize (n + 1)) := by
      simp only [deserialize]
      intro s
      dsimp only
      split
      · exact ⟨rfl, le_refl _⟩
      · rcases h : deserialize_inner n
          { s with recursion_limit := (s.recursion_limit + 255) % 256 } with ⟨out, s2⟩
        have h1 := ihInner { s with recursion_limit := (s.recursion_limit + 255) % 256 }
        rw [h] at h1
        cases out with
        | ok v => exact h1
        | err e => exact h1
        | panicked => exact h1
    exact ⟨hSimple, fun ty => (hArm ty).1, fun ty => (hArm ty).2.1, fun ty => (hArm ty).2.2,
      hData, hElems, hList, hProp, hExh, hShallow, hProps, hInner, hDe⟩

/-! ## Recursion-counter invariants. -/

/-- The operation never touches `options.recursion_limit`, on any
outcome. -/
def KeepLim {α : Type} (m : DeM α) : Prop :=
  ∀ s, (m s).2.recursion_limit = s.recursion_limit

/-- The operation restores `options.recursion_limit` on the success
path (for a `u8` counter, i.e. assuming it is in range). -/
def PLim {α : Type} (m : DeM α) : Prop :=
  ∀ s a s', s.recursion_limit < 256 → m s = (.ok a, s') →
    s'.recursion_limit = s.recursion_limit

theorem keeplim_bind {α β : Type} {m : DeM α} {f : α → DeM β}
    (hm : KeepLim m) (hf : ∀ a, KeepLim (f a)) : KeepLim (m >>= f) := by
  intro s
  rw [bind_apply]
  rcases h : m s with ⟨out, s1⟩
  have h1 := hm s
  rw [h] at h1
  cases out with
  | ok a => exact (hf a s1).trans h1
  | err e => exact h1
  | panicked => exact h1

theorem keeplim_pure {α : Type} (a : α) : KeepLim (pure a : DeM α) := fun _ => rfl

theorem keeplim_derr {α : Type} (e : DeErr) : KeepLim (derr e : DeM α) := fun _ => rfl

theorem keeplim_panicked {α : Type} : KeepLim (fun s => (.panicked, s) : DeM α) :=
  fun _ => rfl

theorem keeplim_ite {α : Type} {c : Prop} [Decidable c] {m1 m2 : DeM α}
    (h1 : KeepLim m1) (h2 : KeepLim m2) : KeepLim (if c then m1 else m2) := by
  split <;> assumption

theorem keeplim_read_bit : KeepLim read_bit := by
  intro s; unfold read_bit; split <;> rfl

theorem keeplim_read_value_bits (n : Nat) : KeepLim (read_value_bits n) := by
  intro s; unfold read_value_bits; split <;> rfl

theorem keeplim_realign : KeepLim realign_to_byte := fun _ => rfl

theorem keeplim_load_le (k : Nat) : KeepLim (load_le k) := by
  intro s; unfold load_le; dsimp only; split <;> rfl

theorem keeplim_read_bytes (n : Nat) : KeepLim (read_bytes n) := by
  intro s; unfold read_bytes; dsimp only; split <;> rfl

theorem keeplim_getFlags : KeepLim getFlags := fun _ => rfl
theorem keeplim_getShallow : KeepLim getShallow := fun _ => rfl
theorem keeplim_getMask : KeepLim getMask := fun _ => rfl
theorem keeplim_getLen : KeepLim getLen := fun _ => rfl
theorem keeplim_getTypes : KeepLim getTypes := fun _ => rfl

theorem keeplim_okOrElse {α : Type} (o : Option α) (e : DeErr) :
    KeepLim (okOrElse o e) := by
  intro s
  unfold okOrElse
  cases o <;> rfl

theorem keeplim_read_compact_length : KeepLim read_compact_length := by
  unfold read_compact_length
  exact keeplim_bind keeplim_read_bit
    (fun b => keeplim_ite (keeplim_read_value_bits _) (keeplim_read_value_bits _))

theorem keeplim_read_str_len : KeepLim read_str_len := by
  unfold read_str_len
  exact keeplim_bind keeplim_realign (fun _ =>
    keeplim_bind keeplim_getFlags (fun _ =>
      keeplim_ite keeplim_read_compact_length (keeplim_load_le 2)))

theorem keeplim_read_seq_len : KeepLim read_seq_len := by
  unfold read_seq_len
  exact keeplim_bind keeplim_realign (fun _ =>
    keeplim_bind keeplim_getFlags (fun _ =>
      keeplim_ite keeplim_read_compact_length (keeplim_load_le 4)))

theorem keeplim_read_str : KeepLim read_str := by
  unfold read_str
  exact keeplim_bind keeplim_read_str_len (fun n => keeplim_read_bytes n)

theorem keeplim_read_u16s (n : Nat) : KeepLim (read_u16s n) := by
  induction n with
  | zero => exact keeplim_pure []
  | succ k ih =>
    unfold read_u16s
    exact keeplim_bind (keeplim_load_le 2)
      (fun _ => keeplim_bind ih (fun _ => keeplim_pure _))

theorem keeplim_read_wstr : KeepLim read_wstr := by
  unfold read_wstr
  exact keeplim_bind keeplim_read_str_len (fun n => keeplim_read_u16s n)

theorem keeplim_deserialize_bits (n : Nat) : KeepLim (deserialize_bits n) :=
  keeplim_read_value_bits n

theorem keeplim_deserialize_signed_bits (n : Nat) :
    KeepLim (deserialize_signed_bits n) := by
  unfold deserialize_signed_bits
  exact keeplim_bind (keeplim_deserialize_bits n)
    (fun v => keeplim_ite (keeplim_pure _) (keeplim_pure _))

theorem keeplim_deserialize_bool : KeepLim deserialize_bool := keeplim_read_bit
theorem keeplim_deserialize_u8 : KeepLim deserialize_u8 := keeplim_load_le 1
theorem keeplim_deserialize_u16 : KeepLim deserialize_u16 := keeplim_load_le 2
theorem keeplim_deserialize_u32 : KeepLim deserialize_u32 := keeplim_load_le 4
theorem keeplim_deserialize_u64 : KeepLim deserialize_u64 := keeplim_load_le 8

theorem keeplim_deserialize_i8 : KeepLim deserialize_i8 :=
  keeplim_bind (keeplim_load_le 1) (fun _ => keeplim_pure _)
theorem keeplim_deserialize_i16 : KeepLim deserialize_i16 :=
  keeplim_bind (keeplim_load_le 2) (fun _ => keeplim_pure _)
theorem keeplim_deserialize_i32 : KeepLim deserialize_i32 :=
  keeplim_bind (keeplim_load_le 4) (fun _ => keeplim_pure _)
theorem keeplim_deserialize_f32 : KeepLim deserialize_f32 := keeplim_load_le 4
theorem keeplim_deserialize_f64 : KeepLim deserialize_f64 := keeplim_load_le 8

theorem keeplim_object_identity : KeepLim object_identity := by
  unfold object_identity
  refine keeplim_bind (keeplim_load_le 4) (fun h => ?_)
  refine keeplim_ite (keeplim_pure _) (keeplim_bind keeplim_getTypes (fun t => ?_))
  rcases t.get h with _ | td
  · exact keeplim_derr _
  · exact keeplim_pure _

theorem keeplim_deserialize_enum_variant (p : Property) :
    KeepLim (deserialize_enum_variant p) := by
  unfold deserialize_enum_variant
  refine keeplim_bind keeplim_getFlags (fun fl => ?_)
  refine keeplim_ite ?_ ?_
  · refine keeplim_bind keeplim_read_str (fun raw => ?_)
    exact keeplim_ite (keeplim_pure _) (keeplim_derr _)
  · refine keeplim_bind (keeplim_load_le 4) (fun v => ?_)
    refine keeplim_ite ?_ ?_
    · rcases findVariant p.enum_options v with _ | w
      · exact keeplim_derr _
      · exact keeplim_pure _
    · rcases bits_compose p.enum_options v with e | b
      · exact keeplim_derr _
      · exact keeplim_pure _

/-- `deserialize_simple_data` (with its parametric arm helpers) never
touches the recursion counter. -/
theorem simple_keeplim : ∀ fuel,
    (∀ ty, KeepLim (deserialize_simple_data fuel ty)) ∧
    (∀ ty, KeepLim (size_decode fuel ty)) ∧
    (∀ ty, KeepLim (point_decode fuel ty)) ∧
    (∀ ty, KeepLim (rect_decode fuel ty)) := by
  intro fuel
  induction fuel with
  | zero =>
    exact ⟨fun _ => keeplim_derr _, fun _ => keeplim_derr _,
      fun _ => keeplim_derr _, fun _ => keeplim_derr _⟩
  | succ n ih =>
    obtain ⟨ihS, ihSize, ihPoint, ihRect⟩ := ih
    have hSimple : ∀ ty, KeepLim (deserialize_simple_data (n + 1) ty) := by
      intro ty
      simp only [deserialize_simple_data]
      refine keeplim_ite (keeplim_bind keeplim_deserialize_bool fun _ => keeplim_pure _) ?_
      refine keeplim_ite (keeplim_bind keeplim_deserialize_i8 fun _ => keeplim_pure _) ?_
      refine keeplim_ite (keeplim_bind keeplim_deserialize_u8 fun _ => keeplim_pure _) ?_
      refine keeplim_ite (keeplim_bind keeplim_deserialize_i16 fun _ => keeplim_pure _) ?_
      refine keeplim_ite (keeplim_bind keeplim_deserialize_u16 fun _ => keeplim_pure _) ?_
      refine keeplim_ite (keeplim_bind keeplim_deserialize_i32 fun _ => keeplim_pure _) ?_
      refine keeplim_ite (keeplim_bind keeplim_deserialize_u32 fun _ => keeplim_pure _) ?_
      refine keeplim_ite (keeplim_bind keeplim_deserialize_f32 fun _ => keeplim_pure _) ?_
      refine keeplim_ite (keeplim_bind keeplim_deserialize_f64 fun _ => keeplim_pure _) ?_
      refine keeplim_ite (keeplim_bind keeplim_deserialize_u64 fun _ => keeplim_pure _) ?_
      refine keeplim_ite (keeplim_bind (keeplim_deserialize_signed_bits 2) fun _ => keeplim_pure _) ?_
      refine keeplim_ite (keeplim_bind (keeplim_deserialize_bits 2) fun _ => keeplim_pure _) ?_
      refine keeplim_ite (keeplim_bind (keeplim_deserialize_signed_bits 3) fun _ => keeplim_pure _) ?_
      refine keeplim_ite (keeplim_bind (keeplim_deserialize_bits 3) fun _ => keeplim_pure _) ?_
      refine keeplim_ite (keeplim_bind (keeplim_deserialize_signed_bits 4) fun _ => keeplim_pure _) ?_
      refine keeplim_ite (keeplim_bind (keeplim_deserialize_bits 4) fun _ => keeplim_pure _) ?_
      refine keeplim_ite (keeplim_bind (keeplim_deserialize_signed_bits 5) fun _ => keeplim_pure _) ?_
      refine keeplim_ite (keeplim_bind (keeplim_deserialize_bits 5) fun _ => keeplim_pure _) ?_
      refine keeplim_ite (keeplim_bind (keeplim_deserialize_signed_bits 6) fun _ => keeplim_pure _) ?_
      refine keeplim_ite (keeplim_bind (keeplim_deserialize_bits 6) fun _ => keeplim_pure _) ?_
      refine keeplim_ite (keeplim_bind (keeplim_deserialize_signed_bits 7) fun _ => keeplim_pure _) ?_
      refine keeplim_ite (keeplim_bind (keeplim_deserialize_bits 7) fun _ => keeplim_pure _) ?_
      refine keeplim_ite (keeplim_bind (keeplim_deserialize_signed_bits 24) fun _ => keeplim_pure _) ?_
      refine keeplim_ite (keeplim_bind (keeplim_deserialize_bits 24) fun _ => keeplim_pure _) ?_
      refine keeplim_ite (keeplim_bind keeplim_read_str fun _ => keeplim_pure _) ?_
      refine keeplim_ite (keeplim_bind keeplim_read_wstr fun _ => keeplim_pure _) ?_
      refine keeplim_ite (keeplim_bind keeplim_deserialize_u8 fun _ =>
        keeplim_bind keeplim_deserialize_u8 fun _ => keeplim_bind keeplim_deserialize_u8
        fun _ => keeplim_bind keeplim_deserialize_u8 fun _ => keeplim_pure _) ?_
      refine keeplim_ite (keeplim_bind keeplim_deserialize_f32 fun _ =>
        keeplim_bind keeplim_deserialize_f32 fun _ => keeplim_bind keeplim_deserialize_f32
        fun _ => keeplim_pure _) ?_
      refine keeplim_ite (keeplim_bind keeplim_deserialize_f32 fun _ =>
        keeplim_bind keeplim_deserialize_f32 fun _ => keeplim_bind keeplim_deserialize_f32
        fun _ => keeplim_bind keeplim_deserialize_f32 fun _ => keeplim_pure _) ?_
      refine keeplim_ite (keeplim_bind keeplim_deserialize_f32 fun _ =>
        keeplim_bind keeplim_deserialize_f32 fun _ => keeplim_bind keeplim_deserialize_f32
        fun _ => keeplim_pure _) ?_
      refine keeplim_ite (keeplim_bind keeplim_deserialize_f32 fun _ =>
        keeplim_bind keeplim_deserialize_f32 fun _ => keeplim_bind keeplim_deserialize_f32
        fun _ => keeplim_bind keeplim_deserialize_f32 fun _ => keeplim_bind keeplim_deserialize_f32
        fun _ => keeplim_bind keeplim_deserialize_f32 fun _ => keeplim_bind keeplim_deserialize_f32
        fun _ => keeplim_bind keeplim_deserialize_f32 fun _ => keeplim_bind keeplim_deserialize_f32
        fun _ => keeplim_pure _) ?_
      refine keeplim_ite ?_ (keeplim_ite ?_ (keeplim_ite ?_ (keeplim_derr _)))
      · rcases extract_type_argument ty with _ | a
        · exact keeplim_panicked
        · exact ihSize a
      · rcases extract_type_argument ty with _ | a
        · exact keeplim_panicked
        · exact ihPoint a
      · rcases extract_type_argument ty with _ | a
        · exact keeplim_panicked
        · exact ihRect a
    refine ⟨hSimple, ?_, ?_, ?_⟩ <;> intro ty
    · simp only [size_decode]
      exact keeplim_bind (ihS _) fun _ => keeplim_bind (ihS _) fun _ => keeplim_pure _
    · simp only [point_decode]
      exact keeplim_bind (ihS _) fun _ => keeplim_bind (ihS _) fun _ => keeplim_pure _
    · simp only [rect_decode]
      exact keeplim_bind (ihS _) fun _ => keeplim_bind (ihS _) fun _ =>
        keeplim_bind (ihS _) fun _ => keeplim_bind (ihS _) fun _ => keeplim_pure _

theorem plim_of_keeplim {α : Type} {m : DeM α} (h : KeepLim m) : PLim m := by
  intro s a s' _ hm
  have h1 := h s
  rw [hm] at h1
  exact h1

theorem plim_derr {α : Type} (e : DeErr) : PLim (derr e : DeM α) :=
  plim_of_keeplim (keeplim_derr e)

theorem plim_bind {α β : Type} {m : DeM α} {f : α → DeM β}
    (hm : PLim m) (hf : ∀ a, PLim (f a)) : PLim (m >>= f) := by
  intro s a s' hlt h
  rw [bind_apply] at h
  rcases hm1 : m s with ⟨out, s1⟩
  rw [hm1] at h
  cases out with
  | ok b =>
    have e1 := hm s b s1 hlt hm1
    have e2 := hf b s1 a s' (by rw [e1]; exact hlt) h
    exact e2.trans e1
  | err e => simp at h
  | panicked => simp at h

theorem plim_ite {α : Type} {c : Prop} [Decidable c] {m1 m2 : DeM α}
    (h1 : PLim m1) (h2 : PLim m2) : PLim (if c then m1 else m2) := by
  split <;> assumption

/-- Wrapping `u8` decrement followed by wrapping increment is the
identity on in-range counters. -/
theorem u8_dec_inc (l : Nat) (h : l < 256) : ((l + 255) % 256 + 1) % 256 = l := by
  omega

/-- Every function of the walker family restores the recursion counter
on its success path. -/
theorem family_limit : ∀ fuel,
    (∀ p, PLim (deserialize_data fuel p)) ∧
    (∀ n p, PLim (list_elems fuel n p)) ∧
    (∀ p, PLim (deserialize_list fuel p)) ∧
    (∀ p, PLim (deserialize_property fuel p)) ∧
    (∀ os td ob, PLim (exhaust_walk fuel os td ob)) ∧
    (∀ ps ob, PLim (shallow_walk fuel ps ob)) ∧
    (∀ os td, PLim (deserialize_properties fuel os td)) ∧
    PLim (deserialize_inner fuel) ∧
    PLim (deserialize fuel) := by
  intro fuel
  induction fuel with
  | zero =>
    exact ⟨fun _ => plim_derr _, fun _ _ => plim_derr _, fun _ => plim_derr _,
      fun _ => plim_derr _, fun _ _ _ => plim_derr _, fun _ _ => plim_derr _,
      fun _ _ => plim_derr _, plim_derr _, plim_derr _⟩
  | succ n ih =>
    obtain ⟨ihData, ihElems, ihList, ihProp, ihExh, ihShallow, ihProps, ihInner, ihDe⟩ := ih
    have hData : ∀ p, PLim (deserialize_data (n + 1) p) := by
      intro p
      simp only [deserialize_data]
      refine plim_ite (plim_of_keeplim (keeplim_deserialize_enum_variant p)) ?_
      intro s a s' hlt h
      dsimp only at h
      rcases h1 : deserialize_simple_data n p.type s with ⟨out, s1⟩
      rw [h1] at h
      have hk := (simple_keeplim n).1 p.type s
      rw [h1] at hk
      cases out with
      | ok v =>
        simp only [Prod.mk.injEq, DOut.ok.injEq] at h
        rw [← h.2]
        exact hk
      | err e =>
        have := ihDe s1 a s' (by rw [hk]; exact hlt) h
        exact this.trans hk
      | panicked => simp at h
    have hElems : ∀ len p, PLim (list_elems (n + 1) len p) := by
      intro len p
      cases len with
      | zero => exact plim_of_keeplim (fun _ => rfl)
      | succ k =>
        simp only [list_elems]
        exact plim_bind (ihData p) fun _ => plim_bind (ihElems k p) fun _ =>
          plim_of_keeplim (keeplim_pure _)
    have hList : ∀ p, PLim (deserialize_list (n + 1) p) := by
      intro p
      simp only [deserialize_list]
      refine plim_bind (plim_of_keeplim keeplim_read_seq_len) fun len => ?_
      intro s a s' hlt h
      dsimp only at h
      split at h
      · simp at h
      · rcases h2 : list_elems n len p
          { s with recursion_limit := (s.recursion_limit + 255) % 256 } with ⟨out, s2⟩
        rw [h2] at h
        cases out with
        | ok items =>
          have e1 := ihElems len p _ items s2 (Nat.mod_lt _ (by norm_num)) h2
          simp only [Prod.mk.injEq, DOut.ok.injEq] at h
          rw [← h.2]
          simp only [e1]
          exact u8_dec_inc s.recursion_limit hlt
        | err e => simp at h
        | panicked => simp at h
    have hProp : ∀ p, PLim (deserialize_property (n + 1) p) := by
      intro p
      simp only [deserialize_property]
      refine plim_ite ?_ (plim_ite (ihList p) (ihData p))
      refine plim_bind (plim_of_keeplim keeplim_deserialize_bool) fun b => ?_
      refine plim_ite ?_ (plim_ite (ihList p) (ihData p))
      exact plim_bind (plim_of_keeplim keeplim_getFlags) fun fl =>
        plim_ite (plim_derr _) (plim_of_keeplim (keeplim_pure _))
    have hExh : ∀ os td ob, PLim (exhaust_walk (n + 1) os td ob) := by
      intro os td ob
      simp only [exhaust_walk]
      refine plim_ite (plim_of_keeplim (keeplim_pure _)) ?_
      refine plim_bind (plim_of_keeplim keeplim_getLen) fun prev => ?_
      refine plim_bind (plim_of_keeplim keeplim_deserialize_u32) fun psz => ?_
      refine plim_bind (plim_of_keeplim keeplim_deserialize_u32) fun ph => ?_
      refine plim_bind (plim_of_keeplim (keeplim_okOrElse _ _)) fun p => ?_
      refine plim_bind (ihProp p) fun v => ?_
      refine plim_bind (plim_of_keeplim keeplim_getLen) fun nl => ?_
      exact plim_ite (plim_derr _) (plim_ite (ihExh _ td _) (plim_derr _))
    have hShallow : ∀ ps ob, PLim (shallow_walk (n + 1) ps ob) := by
      intro ps ob
      cases ps with
      | nil => exact plim_of_keeplim (fun _ => rfl)
      | cons p rest =>
        simp only [shallow_walk]
        exact plim_bind (ihProp p) fun v => ihShallow rest _
    have hProps : ∀ os td, PLim (deserialize_properties (n + 1) os td) := by
      intro os td
      simp only [deserialize_properties]
      refine plim_bind (plim_of_keeplim keeplim_getShallow) fun sh => ?_
      refine plim_ite ?_ (ihExh os td [])
      exact plim_bind (plim_of_keeplim keeplim_getMask) fun mask => ihShallow _ []
    have hInner : PLim (deserialize_inner (n + 1)) := by
      simp only [deserialize_inner]
      refine plim_bind (plim_of_keeplim keeplim_object_identity) fun td? => ?_
      rcases td? with _ | td
      · exact plim_of_keeplim (keeplim_pure _)
      · refine plim_bind (plim_of_keeplim keeplim_getShallow) fun sh => ?_
        refine plim_ite ?_ ?_
        · exact plim_bind (plim_of_keeplim keeplim_deserialize_u32) fun os =>
            plim_bind (ihProps os td) fun ob => plim_of_keeplim (keeplim_pure _)
        · exact plim_bind (plim_of_keeplim (keeplim_pure 0)) fun os =>
            plim_bind (ihProps os td) fun ob => plim_of_keeplim (keeplim_pure _)
    have hDe : PLim (deserialize (n + 1)) := by
      intro s a s' hlt h
      simp only [deserialize] at h
      dsimp only at h
      split at h
      · simp at h
      · rcases h2 : deserialize_inner n
          { s with recursion_limit := (s.recursion_limit + 255) % 256 } with ⟨out, s2⟩
        rw [h2] at h
        cases out with
        | ok v =>
          have e1 := ihInner _ v s2 (Nat.mod_lt _ (by norm_num)) h2
          simp only [Prod.mk.injEq, DOut.ok.injEq] at h
          rw [← h.2]
          simp only [e1]
          exact u8_dec_inc s.recursion_limit hlt
        | err e => simp at h
        | panicked => simp at h
    exact ⟨hData, hElems, hList, hProp, hExh, hShallow, hProps, hInner, hDe⟩

/-! ## Byte accounting for the exhaustive walk. -/

theorem len_le_of_mono {s s' : DeState} (hd : s'.reader.data = s.reader.data)
    (hp : s.reader.pos ≤ s'.reader.pos) : s'.reader.len ≤ s.reader.len := by
  unfold BitReader.len
  rw [hd]
  exact Nat.sub_le_sub_left (Nat.div_le_div_right hp) _

/-- A successful exhaustive walk consumes, in `reader.len()` terms,
exactly the declared object size. -/
theorem exhaust_walk_consumed : ∀ fuel os td ob s m s',
    exhaust_walk fuel os td ob s = (.ok m, s') →
    s'.reader.len ≤ s.reader.len ∧ s.reader.len - s'.reader.len = os := by
  intro fuel
  induction fuel with
  | zero =>
    intro os td ob s m s' h
    simp [exhaust_walk, derr] at h
  | succ n ih =>
    intro os td ob s m s' h
    simp only [exhaust_walk] at h
    split at h
    · rename_i hos
      simp only [pure_apply, Prod.mk.injEq, DOut.ok.injEq] at h
      rw [← h.2]
      omega
    · rename_i hos
      rw [bind_ok (show getLen s = (.ok s.reader.len, s) from rfl)] at h
      rcases h1 : deserialize_u32 s with ⟨o1, s1⟩
      cases o1 with
      | err e => rw [bind_err h1] at h; simp at h
      | panicked => rw [bind_panic h1] at h; simp at h
      | ok psz =>
        rw [bind_ok h1] at h
        have m1 := mono_deserialize_u32 s
        rw [h1] at m1
        dsimp only at m1
        rcases h2 : deserialize_u32 s1 with ⟨o2, s2⟩
        cases o2 with
        | err e => rw [bind_err h2] at h; simp at h
        | panicked => rw [bind_panic h2] at h; simp at h
        | ok ph =>
          rw [bind_ok h2] at h
          have m2 := mono_deserialize_u32 s1
          rw [h2] at m2
          dsimp only at m2
          cases hfind : td.properties.find? (fun p => p.hash == ph) with
          | none =>
            rw [bind_err (show okOrElse
              (td.properties.find? (fun p => p.hash == ph)) .UnknownProperty s2 =
                (.err .UnknownProperty, s2) from by simp [okOrElse, hfind])] at h
            simp at h
          | some p =>
            rw [bind_ok (show okOrElse
              (td.properties.find? (fun p => p.hash == ph)) .UnknownProperty s2 =
                (.ok p, s2) from by simp [okOrElse, hfind])] at h
            rcases h3 : deserialize_property n p s2 with ⟨o3, s3⟩
            cases o3 with
            | err e => rw [bind_err h3] at h; simp at h
            | panicked => rw [bind_panic h3] at h; simp at h
            | ok v =>
              rw [bind_ok h3] at h
              obtain ⟨-, -, -, -, -, -, -, hPM, -, -, -, -, -⟩ := family_mono n
              have m3 := hPM p s2
              rw [h3] at m3
              dsimp only at m3
              rw [bind_ok (show getLen s3 = (.ok s3.reader.len, s3) from rfl)] at h
              split at h
              · simp [derr] at h
              · rename_i hsz
                split at h
                · rename_i hle
                  obtain ⟨hr1, hr2⟩ := ih (os - psz) td _ s3 m s' h
                  have l1 := len_le_of_mono m1.1 m1.2
                  have l2 := len_le_of_mono m2.1 m2.2
                  have l3 := len_le_of_mono m3.1 m3.2
                  have hsz' : s.reader.len - s3.reader.len = psz := not_not.mp hsz
                  omega
                · simp [derr] at h

/-! ## C1. -/

/-- C1 (counterexample): for a `u64`-typed property on a four-byte
buffer, `deserialize_simple_data` fails with `UnexpectedEof`, yet
`deserialize_data` succeeds with `Empty` — the nested-object fallback ran
on the error, reading the four bytes as a zero identity hash.  Under the
claim the `UnexpectedEof` would have propagated unchanged. -/
theorem C1_counterexample :
    deserialize_simple_data 10 pU64.type (mkState [0, 0, 0, 0] 0 5 emptyTypes) =
      (.err .UnexpectedEof, mkState [0, 0, 0, 0] 0 5 emptyTypes) ∧
    deserialize_data 11 pU64 (mkState [0, 0, 0, 0] 0 5 emptyTypes) =
      (.ok Value.Empty,
       { mkState [0, 0, 0, 0] 0 5 emptyTypes with
           reader := { data := [0, 0, 0, 0], pos := 32 } }) :=
  ⟨rfl, rfl⟩

/-- C1 (corrected): for a property whose flags contain neither `BITS`
nor `ENUM`, the recursive nested-object fallback of `deserialize_data`
is taken whenever `deserialize_simple_data` returns an error — any error,
not only `NotSimple` — and the fallback resumes from the state the failed
attempt left behind; no error from `deserialize_simple_data` propagates
past the fallback. -/
theorem C1_data_fallback_catches_every_error (fuel : Nat) (p : Property)
    (s s' : DeState) (e : DeErr)
    (hflags : (p.flags.bits || p.flags.enum) = false)
    (hsimple : deserialize_simple_data fuel p.type s = (.err e, s')) :
    deserialize_data (fuel + 1) p s = deserialize fuel s' := by
  simp only [deserialize_data, hflags, Bool.false_eq_true, if_false]
  rw [hsimple]

/-- C1 witness: the corrected fallback law at the concrete `u64` input. -/
theorem C1_data_fallback_catches_every_error_witness :
    deserialize_data 11 pU64 (mkState [0, 0, 0, 0] 0 5 emptyTypes) =
      deserialize 10 (mkState [0, 0, 0, 0] 0 5 emptyTypes) :=
  C1_data_fallback_catches_every_error 10 pU64 _ _ .UnexpectedEof rfl rfl

/-! ## C2. -/

/-- C2 (counterexample): a failing `deserialize` does not restore the
recursion counter.  On an empty buffer with `recursion_limit = 5` the
call fails with `UnexpectedEof` and leaves the counter at 4. -/
theorem C2_counterexample :
    (mkState [] 0 5 emptyTypes).recursion_limit = 5 ∧
    deserialize 10 (mkState [] 0 5 emptyTypes) =
      (.err .UnexpectedEof, { mkState [] 0 5 emptyTypes with recursion_limit := 4 }) :=
  ⟨rfl, rfl⟩

/-- C2 (corrected): every invocation of `deserialize` decrements the
recursion counter and fails with `RecursionLimit` when it reaches zero
after the decrement; the counter is restored on the success path only,
so after a successful call `options.recursion_limit` equals its value
before the call, while a failing call may leave it decremented. -/
theorem C2_recursion_counter :
    (∀ fuel s v s', s.recursion_limit < 256 →
       deserialize fuel s = (.ok v, s') →
       s'.recursion_limit = s.recursion_limit) ∧
    (∀ fuel s, s.recursion_limit = 1 →
       deserialize (fuel + 1) s =
         (.err .RecursionLimit, { s with recursion_limit := 0 })) := by
  constructor
  · intro fuel s v s' hlt h
    exact (family_limit fuel).2.2.2.2.2.2.2.2 s v s' hlt h
  · intro fuel s h1
    have h2 : (s.recursion_limit + 255) % 256 = 0 := by omega
    simp [deserialize, h2]

/-- C2 witness: the counter facts at concrete inputs — a successful
deserialization of a zero identity hash restores the counter to 5, and a
call entered with counter 1 fails with `RecursionLimit`. -/
theorem C2_recursion_counter_witness :
    (deserialize 10 (mkState [0, 0, 0, 0] 0 5 emptyTypes)).2.recursion_limit = 5 ∧
    deserialize 4 (mkState [] 0 1 emptyTypes) =
      (.err .RecursionLimit, { mkState [] 0 1 emptyTypes with recursion_limit := 0 }) :=
  ⟨C2_recursion_counter.1 10 (mkState [0, 0, 0, 0] 0 5 emptyTypes) Value.Empty
     { mkState [0, 0, 0, 0] 0 5 emptyTypes with
         reader := { data := [0, 0, 0, 0], pos := 32 } } (by decide) rfl,
   C2_recursion_counter.2 3 (mkState [] 0 1 emptyTypes) rfl⟩

/-! ## C9. -/

/-- C9 (confirmed): `deserialize_list` spends one unit of recursion
budget around its element loop — it restores the counter on success, and
once the sequence length has been read, a list met with a remaining
counter of 1 fails with `RecursionLimit` regardless of its elements. -/
theorem C9_list_consumes_recursion_budget :
    (∀ fuel p s v s', s.recursion_limit < 256 →
       deserialize_list fuel p s = (.ok v, s') →
       s'.recursion_limit = s.recursion_limit) ∧
    (∀ fuel p s n s', s.recursion_limit = 1 →
       read_seq_len s = (.ok n, s') →
       deserialize_list (fuel + 1) p s =
         (.err .RecursionLimit, { s' with recursion_limit := 0 })) := by
  constructor
  · intro fuel p s v s' hlt h
    exact (family_limit fuel).2.2.1 p s v s' hlt h
  · intro fuel p s n s' h1 hseq
    have h2 : s'.recursion_limit = 1 := by
      have hk := keeplim_read_seq_len s
      rw [hseq] at hk
      dsimp only at hk
      rw [h1] at hk
      exact hk
    have h3 : (s'.recursion_limit + 255) % 256 = 0 := by omega
    simp only [deserialize_list, bind_apply, hseq]
    dsimp only
    rw [h3]
    simp

/-- C9 witness: a list of one `unsigned int` element decoded with budget
5 restores the counter, and an (empty) list met with budget 1 fails with
`RecursionLimit`. -/
theorem C9_list_consumes_recursion_budget_witness :
    (deserialize_list 10 pDyn
        (mkState [1, 0, 0, 0, 7, 0, 0, 0] 0 5 emptyTypes)).2.recursion_limit = 5 ∧
    deserialize_list 5 pDyn (mkState [0, 0, 0, 0] 0 1 emptyTypes) =
      (.err .RecursionLimit,
       { mkState [0, 0, 0, 0] 0 1 emptyTypes with
           reader := { data := [0, 0, 0, 0], pos := 32 }, recursion_limit := 0 }) :=
  ⟨C9_list_consumes_recursion_budget.1 10 pDyn
     (mkState [1, 0, 0, 0, 7, 0, 0, 0] 0 5 emptyTypes) (Value.List [Value.Unsigned 7])
     { mkState [1, 0, 0, 0, 7, 0, 0, 0] 0 5 emptyTypes with
         reader := { data := [1, 0, 0, 0, 7, 0, 0, 0], pos := 64 } }
     (by decide) rfl,
   C9_list_consumes_recursion_budget.2 4 pDyn (mkState [0, 0, 0, 0] 0 1 emptyTypes) 0
     { mkState [0, 0, 0, 0] 0 1 emptyTypes with
         reader := { data := [0, 0, 0, 0], pos := 32 } } rfl rfl⟩

/-! ## C4. -/

set_option maxHeartbeats 1600000 in
/-- C4 (confirmed): in exhaustive (non-shallow) mode
`deserialize_properties` loops until the declared object size is exactly
consumed — on success the bytes consumed equal `object_size` exactly —
and on the wire of a two-property object it produces one mapping entry
per decoded property, while an unknown property hash fails with
`UnknownProperty`, a size mismatch fails with `PropertySize`, and an
object-size underflow fails with `ObjectSizeMismatch` (shown at concrete
12-byte property blocks). -/
theorem C4_exhaustive_walk_spec :
    (∀ fuel os td s m s', s.shallow = false →
       deserialize_properties fuel os td s = (.ok m, s') →
       s'.reader.len ≤ s.reader.len ∧ s.reader.len - s'.reader.len = os) ∧
    deserialize_properties 12 21 tdTwo
        (mkState [12, 0, 0, 0, 1, 0, 0, 0, 5, 0, 0, 0, 9, 0, 0, 0, 2, 0, 0, 0, 7]
          0 50 emptyTypes) =
      (.ok [("a".data, Value.Unsigned 7), ("n".data, Value.Unsigned 5)],
       { mkState [12, 0, 0, 0, 1, 0, 0, 0, 5, 0, 0, 0, 9, 0, 0, 0, 2, 0, 0, 0, 7]
           0 50 emptyTypes with
           reader := { data := [12, 0, 0, 0, 1, 0, 0, 0, 5, 0, 0, 0, 9, 0, 0, 0,
                                2, 0, 0, 0, 7], pos := 168 } }) ∧
    (deserialize_properties 12 12 tdTwo
        (mkState [12, 0, 0, 0, 3, 0, 0, 0, 5, 0, 0, 0] 0 50 emptyTypes)).1 =
      .err .UnknownProperty ∧
    (deserialize_properties 12 12 tdTwo
        (mkState [11, 0, 0, 0, 1, 0, 0, 0, 5, 0, 0, 0] 0 50 emptyTypes)).1 =
      .err .PropertySize ∧
    (deserialize_properties 12 8 tdTwo
        (mkState [12, 0, 0, 0, 1, 0, 0, 0, 5, 0, 0, 0] 0 50 emptyTypes)).1 =
      .err .ObjectSizeMismatch := by
  refine ⟨?_, rfl, rfl, rfl, rfl⟩
  intro fuel os td s m s' hsh h
  cases fuel with
  | zero => simp [deserialize_properties, derr] at h
  | succ n =>
    simp only [deserialize_properties] at h
    rw [bind_ok (show getShallow s = (.ok s.shallow, s) from rfl)] at h
    rw [hsh] at h
    simp only [Bool.false_eq_true, if_false] at h
    exact exhaust_walk_consumed n os td [] s m s' h

set_option maxHeartbeats 1600000 in
/-- C4 witness: the exact-consumption law applied to the concrete
two-property object (21 declared bytes, 21 bytes consumed). -/
theorem C4_exhaustive_walk_spec_witness :
    (deserialize_properties 12 21 tdTwo
        (mkState [12, 0, 0, 0, 1, 0, 0, 0, 5, 0, 0, 0, 9, 0, 0, 0, 2, 0, 0, 0, 7]
          0 50 emptyTypes)).2.reader.len ≤
      (mkState [12, 0, 0, 0, 1, 0, 0, 0, 5, 0, 0, 0, 9, 0, 0, 0, 2, 0, 0, 0, 7]
          0 50 emptyTypes).reader.len ∧
    (mkState [12, 0, 0, 0, 1, 0, 0, 0, 5, 0, 0, 0, 9, 0, 0, 0, 2, 0, 0, 0, 7]
          0 50 emptyTypes).reader.len -
      (deserialize_properties 12 21 tdTwo
        (mkState [12, 0, 0, 0, 1, 0, 0, 0, 5, 0, 0, 0, 9, 0, 0, 0, 2, 0, 0, 0, 7]
          0 50 emptyTypes)).2.reader.len = 21 :=
  C4_exhaustive_walk_spec.1 12 21 tdTwo _ _ _ rfl rfl

/-! ## C3. -/

/-- C3 (code bug, evaluated): with `HUMAN_READABLE_ENUMS` clear, decoding
a `BITS` property whose wire value is 1 against the single variant
`A = 1` yields the bytes of `"A"` followed by 31 dangling `" | "`
separators — the loop appends a separator on every iteration after the
first appended name, whether or not the current bit is set — instead of
the canonical `"A"`. -/
theorem C3_bitflags_dangling_separators :
    deserialize_enum_variant pBits (mkState [1, 0, 0, 0] 0 5 emptyTypes) =
      (.ok (Value.Enum (65 :: (List.replicate 31 sepBytes).flatten)),
       { mkState [1, 0, 0, 0] 0 5 emptyTypes with
           reader := { data := [1, 0, 0, 0], pos := 32 } }) ∧
    65 :: (List.replicate 31 sepBytes).flatten ≠ strBytes "A".data :=
  ⟨rfl, by decide⟩

/-! ## C6. -/

/-- C6 (confirmed): a `DELTA_ENCODE` property reads exactly one presence
bit; a clear bit yields `Empty` with no further data consumed (the final
position is one bit past the initial one), unless `FORBID_DELTA_ENCODE`
is set, in which case it fails with `MissingDelta`; a set bit continues
with the normal list-or-data decode from the post-bit state; a property
without `DELTA_ENCODE` consumes no presence bit. -/
theorem C6_delta_presence_bit :
    (∀ fuel p s, p.flags.delta_encode = true →
       s.reader.pos < 8 * s.reader.data.length →
       bitAt s.reader.data s.reader.pos = 0 →
       ((flagsContain s.flags FORBID_DELTA_ENCODE = false →
          deserialize_property (fuel + 1) p s =
            (.ok Value.Empty,
             { s with reader := { s.reader with pos := s.reader.pos + 1 } })) ∧
        (flagsContain s.flags FORBID_DELTA_ENCODE = true →
          deserialize_property (fuel + 1) p s =
            (.err .MissingDelta,
             { s with reader := { s.reader with pos := s.reader.pos + 1 } })))) ∧
    (∀ fuel p s, p.flags.delta_encode = true →
       s.reader.pos < 8 * s.reader.data.length →
       bitAt s.reader.data s.reader.pos = 1 →
       deserialize_property (fuel + 1) p s =
         (if p.dynamic then deserialize_list fuel p else deserialize_data fuel p)
           { s with reader := { s.reader with pos := s.reader.pos + 1 } }) ∧
    (∀ fuel p s, p.flags.delta_encode = false →
       deserialize_property (fuel + 1) p s =
         (if p.dynamic then deserialize_list fuel p else deserialize_data fuel p) s) := by
  refine ⟨?_, ?_, ?_⟩
  · intro fuel p s hd hpos hbit
    have hb : deserialize_bool s = (.ok false,
        { s with reader := { s.reader with pos := s.reader.pos + 1 } }) := by
      unfold deserialize_bool read_bit
      rw [if_pos hpos, hbit]
      rfl
    constructor
    · intro hforbid
      simp only [deserialize_property, hd, if_true]
      rw [bind_ok hb]
      simp only [Bool.not_false, if_true]
      rw [bind_ok (show getFlags
        { s with reader := { s.reader with pos := s.reader.pos + 1 } } =
          (.ok s.flags, { s with reader := { s.reader with pos := s.reader.pos + 1 } })
        from rfl)]
      rw [hforbid]
      simp [pure_apply]
    · intro hforbid
      simp only [deserialize_property, hd, if_true]
      rw [bind_ok hb]
      simp only [Bool.not_false, if_true]
      rw [bind_ok (show getFlags
        { s with reader := { s.reader with pos := s.reader.pos + 1 } } =
          (.ok s.flags, { s with reader := { s.reader with pos := s.reader.pos + 1 } })
        from rfl)]
      rw [hforbid]
      simp [derr]
  · intro fuel p s hd hpos hbit
    have hb : deserialize_bool s = (.ok true,
        { s with reader := { s.reader with pos := s.reader.pos + 1 } }) := by
      unfold deserialize_bool read_bit
      rw [if_pos hpos, hbit]
      rfl
    simp only [deserialize_property, hd, if_true]
    rw [bind_ok hb]
    simp
  · intro fuel p s hd
    simp [deserialize_property, hd]

/-- C6 witness: the presence-bit behaviors at a concrete `DELTA_ENCODE`
`unsigned int` property — absent delta with `FORBID_DELTA_ENCODE` clear
yields `Empty` after one bit, absent delta with the flag set fails with
`MissingDelta`. -/
theorem C6_delta_presence_bit_witness :
    deserialize_property 5 pDelta (mkState [0] 0 9 emptyTypes) =
      (.ok Value.Empty,
       { mkState [0] 0 9 emptyTypes with reader := { data := [0], pos := 1 } }) ∧
    deserialize_property 5 pDelta (mkState [0] FORBID_DELTA_ENCODE 9 emptyTypes) =
      (.err .MissingDelta,
       { mkState [0] FORBID_DELTA_ENCODE 9 emptyTypes with
           reader := { data := [0], pos := 1 } }) :=
  ⟨((C6_delta_presence_bit.1 4 pDelta (mkState [0] 0 9 emptyTypes)
      rfl (by decide) rfl).1 rfl),
   ((C6_delta_presence_bit.1 4 pDelta (mkState [0] FORBID_DELTA_ENCODE 9 emptyTypes)
      rfl (by decide) rfl).2 rfl)⟩

/-! ## C10. -/

/-- The operation can only fail with `UnexpectedEof`. -/
def ErrEof {α : Type} (m : DeM α) : Prop :=
  ∀ s e s', m s = (.err e, s') → e = .UnexpectedEof

theorem erreof_bind {α β : Type} {m : DeM α} {f : α → DeM β}
    (hm : ErrEof m) (hf : ∀ a, ErrEof (f a)) : ErrEof (m >>= f) := by
  intro s e s' h
  rcases h1 : m s with ⟨out, s1⟩
  cases out with
  | ok a =>
    rw [bind_ok h1] at h
    exact hf a s1 e s' h
  | err e1 =>
    rw [bind_err h1] at h
    simp only [Prod.mk.injEq, DOut.err.injEq] at h
    rw [← h.1]
    exact hm s e1 s1 h1
  | panicked =>
    rw [bind_panic h1] at h
    simp at h

theorem erreof_pure {α : Type} (a : α) : ErrEof (pure a : DeM α) := by
  intro s e s' h
  simp [pure_apply] at h

theorem erreof_ite {α : Type} {c : Prop} [Decidable c] {m1 m2 : DeM α}
    (h1 : ErrEof m1) (h2 : ErrEof m2) : ErrEof (if c then m1 else m2) := by
  split <;> assumption

theorem erreof_getFlags : ErrEof getFlags := by
  intro s e s' h
  simp [getFlags] at h

theorem erreof_realign : ErrEof realign_to_byte := by
  intro s e s' h
  simp [realign_to_byte] at h

theorem erreof_read_bit : ErrEof read_bit := by
  intro s e s' h
  unfold read_bit at h
  split at h
  · simp at h
  · simp only [Prod.mk.injEq, DOut.err.injEq] at h
    exact h.1.symm

theorem erreof_read_value_bits (n : Nat) : ErrEof (read_value_bits n) := by
  intro s e s' h
  unfold read_value_bits at h
  split at h
  · simp at h
  · simp only [Prod.mk.injEq, DOut.err.injEq] at h
    exact h.1.symm

theorem erreof_load_le (k : Nat) : ErrEof (load_le k) := by
  intro s e s' h
  unfold load_le at h
  dsimp only at h
  split at h
  · simp at h
  · simp only [Prod.mk.injEq, DOut.err.injEq] at h
    exact h.1.symm

theorem erreof_read_bytes (n : Nat) : ErrEof (read_bytes n) := by
  intro s e s' h
  unfold read_bytes at h
  dsimp only at h
  split at h
  · simp at h
  · simp only [Prod.mk.injEq, DOut.err.injEq] at h
    exact h.1.symm

theorem erreof_read_compact_length : ErrEof read_compact_length := by
  unfold read_compact_length
  exact erreof_bind erreof_read_bit
    (fun b => erreof_ite (erreof_read_value_bits _) (erreof_read_value_bits _))

theorem erreof_read_str_len : ErrEof read_str_len := by
  unfold read_str_len
  exact erreof_bind erreof_realign (fun _ =>
    erreof_bind erreof_getFlags (fun _ =>
      erreof_ite erreof_read_compact_length (erreof_load_le 2)))

theorem erreof_read_str : ErrEof read_str := by
  unfold read_str
  exact erreof_bind erreof_read_str_len (fun n => erreof_read_bytes n)

/-- C10 (confirmed): with `HUMAN_READABLE_ENUMS` set,
`deserialize_enum_variant` never fails with `UnknownEnumVariant`, its
result does not depend on the property's `enum_options` at all, and on a
valid-UTF-8 length-prefixed string it succeeds — prefixing an `ENUM`
string with `"<type>::"` and returning a `BITS` string unchanged.
`UnknownEnumVariant` can therefore arise only in the integer
representation. -/
theorem C10_human_readable_ignores_options :
    ∀ p s, flagsContain s.flags HUMAN_READABLE_ENUMS = true →
      ((deserialize_enum_variant p s).1 ≠ .err .UnknownEnumVariant) ∧
      (∀ opts, deserialize_enum_variant { p with enum_options := opts } s =
         deserialize_enum_variant p s) ∧
      (∀ raw s', read_str s = (.ok raw, s') → isValidUtf8 raw = true →
         deserialize_enum_variant p s =
           (.ok (Value.Enum (if p.flags.enum = true then
              strBytes p.type ++ colonColon ++ raw else raw)), s')) := by
  intro p s hf
  refine ⟨?_, ?_, ?_⟩
  · intro hcontra
    rw [show deserialize_enum_variant p s =
        (do
          let raw ← read_str
          if isValidUtf8 raw = true then
            pure (Value.Enum (if p.flags.enum = true then
              strBytes p.type ++ colonColon ++ raw else raw))
          else derr .InvalidUtf8 : DeM Value) s from by
      simp only [deserialize_enum_variant]
      rw [bind_ok (show getFlags s = (.ok s.flags, s) from rfl), hf]
      simp] at hcontra
    rcases h1 : read_str s with ⟨out, s1⟩
    cases out with
    | ok raw =>
      rw [bind_ok h1] at hcontra
      split at hcontra <;> simp [pure_apply, derr] at hcontra
    | err e =>
      rw [bind_err h1] at hcontra
      have := erreof_read_str s e s1 h1
      rw [this] at hcontra
      simp at hcontra
    | panicked =>
      rw [bind_panic h1] at hcontra
      simp at hcontra
  · intro opts
    simp only [deserialize_enum_variant]
    rw [bind_ok (show getFlags s = (.ok s.flags, s) from rfl)]
    rw [bind_ok (show getFlags s = (.ok s.flags, s) from rfl)]
    rw [hf]
    simp
  · intro raw s' hread hvalid
    simp only [deserialize_enum_variant]
    rw [bind_ok (show getFlags s = (.ok s.flags, s) from rfl), hf]
    simp only [if_true]
    rw [bind_ok hread, hvalid]
    simp [pure_apply]

/-- C10 witness: the human-readable laws at the scenario of the
specification — an `ENUM` property of type `EFoo` and the wire string
`"Bar"` decodes to `Enum("EFoo::Bar")`, untouched by `enum_options`. -/
theorem C10_human_readable_ignores_options_witness :
    ((deserialize_enum_variant pEnumHR
        (mkState [3, 0, 66, 97, 114] HUMAN_READABLE_ENUMS 9 emptyTypes)).1 ≠
      .err .UnknownEnumVariant) ∧
    deserialize_enum_variant { pEnumHR with enum_options := [("X".data, .Int 9)] }
        (mkState [3, 0, 66, 97, 114] HUMAN_READABLE_ENUMS 9 emptyTypes) =
      deserialize_enum_variant pEnumHR
        (mkState [3, 0, 66, 97, 114] HUMAN_READABLE_ENUMS 9 emptyTypes) ∧
    deserialize_enum_variant pEnumHR
        (mkState [3, 0, 66, 97, 114] HUMAN_READABLE_ENUMS 9 emptyTypes) =
      (.ok (Value.Enum (strBytes "EFoo".data ++ colonColon ++ [66, 97, 114])),
       { mkState [3, 0, 66, 97, 114] HUMAN_READABLE_ENUMS 9 emptyTypes with
           reader := { data := [3, 0, 66, 97, 114], pos := 40 } }) := by
  obtain ⟨w1, w2, w3⟩ := C10_human_readable_ignores_options pEnumHR
    (mkState [3, 0, 66, 97, 114] HUMAN_READABLE_ENUMS 9 emptyTypes) rfl
  refine ⟨w1, w2 _, ?_⟩
  have := w3 [66, 97, 114]
    { mkState [3, 0, 66, 97, 114] HUMAN_READABLE_ENUMS 9 emptyTypes with
        reader := { data := [3, 0, 66, 97, 114], pos := 40 } } rfl rfl
  simpa using this

/-! ## C5: bit-stream arithmetic. -/

theorem bitAt_le_one (d : List Nat) (k : Nat) : bitAt d k ≤ 1 := by
  unfold bitAt
  exact Nat.and_le_right

theorem bitsVal_lt (d : List Nat) : ∀ n p, bitsVal d p n < 2 ^ n := by
  intro n
  induction n with
  | zero => intro p; simp [bitsVal]
  | succ m ih =>
    intro p
    have h1 := bitAt_le_one d p
    have h2 := ih (p + 1)
    simp only [bitsVal]
    rw [pow_succ]
    omega

theorem bitsVal_split (d : List Nat) : ∀ m p n,
    bitsVal d p (m + n) = bitsVal d p m + 2 ^ m * bitsVal d (p + m) n := by
  intro m
  induction m with
  | zero =>
    intro p n
    simp [bitsVal]
  | succ k ih =>
    intro p n
    rw [Nat.succ_add]
    simp only [bitsVal]
    rw [ih (p + 1) n]
    rw [show p + 1 + k = p + (k + 1) from by omega]
    rw [pow_succ]
    ring

theorem bitAt_byte (d : List Nat) (k i : Nat) (h : i < 8) :
    bitAt d (8 * k + i) = d.getD k 0 / 2 ^ i % 2 := by
  unfold bitAt
  have h1 : (8 * k + i) / 8 = k := by omega
  have h2 : (8 * k + i) % 8 = i := by omega
  rw [h1, h2, Nat.shiftRight_eq_div_pow, Nat.and_one_is_mod]

theorem bitsVal_in_byte (d : List Nat) (k : Nat) : ∀ n i, i + n ≤ 8 →
    bitsVal d (8 * k + i) n = d.getD k 0 / 2 ^ i % 2 ^ n := by
  intro n
  induction n with
  | zero => intro i h; simp [bitsVal, Nat.mod_one]
  | succ m ih =>
    intro i h
    simp only [bitsVal]
    rw [bitAt_byte d k i (by omega)]
    rw [show 8 * k + i + 1 = 8 * k + (i + 1) from by omega]
    rw [ih (i + 1) (by omega)]
    set x := d.getD k 0 / 2 ^ i with hx
    have hdd : d.getD k 0 / 2 ^ (i + 1) = x / 2 := by
      rw [hx, Nat.div_div_eq_div_mul, pow_succ]
    rw [hdd]
    -- x % 2 + 2 * (x / 2 % 2 ^ m) = x % 2 ^ (m + 1)
    have hq := Nat.div_add_mod x 2
    have hq2 := Nat.div_add_mod (x / 2) (2 ^ m)
    have hb : x / 2 % 2 ^ m < 2 ^ m := Nat.mod_lt _ (Nat.pos_pow_of_pos m (by norm_num))
    have hr : x % 2 < 2 := Nat.mod_lt _ (by norm_num)
    have hdecomp : x = 2 ^ (m + 1) * (x / 2 / 2 ^ m) + (2 * (x / 2 % 2 ^ m) + x % 2) := by
      calc x = 2 * (x / 2) + x % 2 := (Nat.div_add_mod x 2).symm
        _ = 2 * (2 ^ m * (x / 2 / 2 ^ m) + x / 2 % 2 ^ m) + x % 2 := by rw [hq2]
        _ = 2 ^ (m + 1) * (x / 2 / 2 ^ m) + (2 * (x / 2 % 2 ^ m) + x % 2) := by
            rw [pow_succ]; ring
    conv_rhs => rw [hdecomp]
    have hlt : 2 * (x / 2 % 2 ^ m) + x % 2 < 2 ^ (m + 1) := by
      rw [pow_succ]; omega
    rw [Nat.mul_add_mod, Nat.mod_eq_of_lt hlt]
    omega

theorem bitsVal_byte (d : List Nat) (k : Nat) :
    bitsVal d (8 * k) 8 = d.getD k 0 % 256 := by
  have := bitsVal_in_byte d k 8 0 (by omega)
  simpa using this

theorem bitsVal_bytes (d : List Nat) : ∀ c k,
    bitsVal d (8 * k) (8 * c) = leVal d k c := by
  intro c
  induction c with
  | zero => intro k; simp [bitsVal, leVal]
  | succ c ih =>
    intro k
    rw [show 8 * (c + 1) = 8 + 8 * c from by ring]
    rw [bitsVal_split d 8 (8 * k) (8 * c)]
    rw [bitsVal_byte]
    rw [show 8 * k + 8 = 8 * (k + 1) from by ring]
    rw [ih (k + 1)]
    simp [leVal]

theorem leVal_lt (d : List Nat) : ∀ c k, leVal d k c < 256 ^ c := by
  intro c
  induction c with
  | zero => intro k; simp [leVal]
  | succ m ih =>
    intro k
    have h1 : d.getD k 0 % 256 < 256 := Nat.mod_lt _ (by norm_num)
    have h2 := ih (k + 1)
    simp only [leVal]
    rw [pow_succ, mul_comm (256 ^ m)]
    nlinarith

theorem alignUp_idem (p : Nat) : alignUp (alignUp p) = alignUp p := by
  unfold alignUp
  omega

theorem alignUp_mul8 (k : Nat) : alignUp (8 * k) = 8 * k := by
  unfold alignUp
  omega

/-- C5 (confirmed): both length codecs realign to a byte boundary first;
with `COMPACT_LENGTH_PREFIXES` set they are the same codec — one
`is_large` bit, then 31 value bits if it is set and 7 if it is clear —
so a length `L < 128` stored as the single byte `2L` occupies exactly
one byte, and a length stored as the four little-endian bytes of
`2L + 1` occupies exactly four bytes, each decoding to `L`; with the
flag clear `read_str_len` performs the nominal byte-aligned
little-endian `u16` load and `read_seq_len` the nominal `u32` load. -/
theorem C5_length_codecs :
    (∀ s, read_str_len s =
       read_str_len { s with reader := { s.reader with pos := alignUp s.reader.pos } }) ∧
    (∀ s, read_seq_len s =
       read_seq_len { s with reader := { s.reader with pos := alignUp s.reader.pos } }) ∧
    (∀ s, flagsContain s.flags COMPACT_LENGTH_PREFIXES = true →
       read_str_len s = read_seq_len s) ∧
    (∀ s k L, flagsContain s.flags COMPACT_LENGTH_PREFIXES = true →
       s.reader.pos = 8 * k →
       k < s.reader.data.length →
       s.reader.data.getD k 0 % 256 = 2 * L →
       L < 128 →
       read_str_len s =
         (.ok L, { s with reader := { s.reader with pos := 8 * k + 8 } })) ∧
    (∀ s k L, flagsContain s.flags COMPACT_LENGTH_PREFIXES = true →
       s.reader.pos = 8 * k →
       k + 4 ≤ s.reader.data.length →
       leVal s.reader.data k 4 = 2 * L + 1 →
       read_str_len s =
         (.ok L, { s with reader := { s.reader with pos := 8 * k + 32 } })) ∧
    (∀ s k, flagsContain s.flags COMPACT_LENGTH_PREFIXES = false →
       s.reader.pos = 8 * k →
       k + 2 ≤ s.reader.data.length →
       read_str_len s =
         (.ok (leVal s.reader.data k 2),
          { s with reader := { s.reader with pos := 8 * k + 16 } })) ∧
    (∀ s k, flagsContain s.flags COMPACT_LENGTH_PREFIXES = false →
       s.reader.pos = 8 * k →
       k + 4 ≤ s.reader.data.length →
       read_seq_len s =
         (.ok (leVal s.reader.data k 4),
          { s with reader := { s.reader with pos := 8 * k + 32 } })) := by
  have hAlignEq : ∀ s : DeState, realign_to_byte s =
      (.ok (), { s with reader := { s.reader with pos := alignUp s.reader.pos } }) :=
    fun _ => rfl
  have hAlignIdem : ∀ s : DeState,
      realign_to_byte { s with reader := { s.reader with pos := alignUp s.reader.pos } } =
      (.ok (), { s with reader := { s.reader with pos := alignUp s.reader.pos } }) := by
    intro s
    unfold realign_to_byte
    simp [alignUp_idem]
  have hAligned : ∀ s : DeState, ∀ k, s.reader.pos = 8 * k →
      realign_to_byte s = (.ok (), s) := by
    intro s k hpos
    unfold realign_to_byte
    rw [hpos, alignUp_mul8, ← hpos]
  refine ⟨?_, ?_, ?_, ?_, ?_, ?_, ?_⟩
  · intro s
    simp only [read_str_len]
    rw [bind_ok (hAlignEq s), bind_ok (hAlignIdem s)]
  · intro s
    simp only [read_seq_len]
    rw [bind_ok (hAlignEq s), bind_ok (hAlignIdem s)]
  · intro s hf
    simp only [read_str_len, read_seq_len]
    rw [bind_ok (hAlignEq s), bind_ok (hAlignEq s)]
    rw [bind_ok (show getFlags
      { s with reader := { s.reader with pos := alignUp s.reader.pos } } =
        (.ok s.flags, { s with reader := { s.reader with pos := alignUp s.reader.pos } })
      from rfl)]
    rw [bind_ok (show getFlags
      { s with reader := { s.reader with pos := alignUp s.reader.pos } } =
        (.ok s.flags, { s with reader := { s.reader with pos := alignUp s.reader.pos } })
      from rfl)]
    rw [hf, if_pos rfl, if_pos rfl]
  · intro s k L hf hpos hk hbyte hL
    obtain ⟨⟨dat, pos⟩, fl, pm, sh, rl, ty⟩ := s
    simp only at hpos hk hbyte hf
    subst hpos
    have hbit : bitAt dat (8 * k) = 0 := by
      have hb0 := bitAt_byte dat k 0 (by norm_num)
      norm_num at hb0
      have hlink : dat[k]?.getD 0 = dat.getD k 0 :=
        (List.getD_eq_getElem?_getD _ _ _).symm
      rw [hb0]
      omega
    have hread : read_bit ⟨⟨dat, 8 * k⟩, fl, pm, sh, rl, ty⟩ =
        (.ok false, ⟨⟨dat, 8 * k + 1⟩, fl, pm, sh, rl, ty⟩) := by
      unfold read_bit
      rw [if_pos (by simp; omega)]
      simp [hbit]
    have hval : bitsVal dat (8 * k + 1) 7 = L := by
      have hv := bitsVal_in_byte dat k 7 1 (by norm_num)
      norm_num at hv
      have hlink : dat[k]?.getD 0 = dat.getD k 0 :=
        (List.getD_eq_getElem?_getD _ _ _).symm
      rw [hv]
      omega
    simp only [read_str_len]
    rw [bind_ok (hAligned _ k rfl)]
    rw [bind_ok (show getFlags ⟨⟨dat, 8 * k⟩, fl, pm, sh, rl, ty⟩ =
      (.ok fl, ⟨⟨dat, 8 * k⟩, fl, pm, sh, rl, ty⟩) from rfl)]
    rw [hf, if_pos rfl]
    unfold read_compact_length
    rw [bind_ok hread]
    simp only [Bool.false_eq_true, if_false]
    unfold read_value_bits
    rw [if_pos (by simp; omega)]
    simp only [Prod.mk.injEq, DOut.ok.injEq]
    constructor
    · exact hval
    · simp
  · intro s k L hf hpos hk hlv
    obtain ⟨⟨dat, pos⟩, fl, pm, sh, rl, ty⟩ := s
    simp only at hpos hk hlv hf
    subst hpos
    have h32 := bitsVal_bytes dat 4 k
    norm_num at h32
    have hsp := bitsVal_split dat 1 (8 * k) 31
    norm_num at hsp
    have h1b : bitsVal dat (8 * k) 1 = bitAt dat (8 * k) := by simp [bitsVal]
    rw [h1b] at hsp
    have hble := bitAt_le_one dat (8 * k)
    have hbit : bitAt dat (8 * k) = 1 := by omega
    have hval : bitsVal dat (8 * k + 1) 31 = L := by omega
    have hread : read_bit ⟨⟨dat, 8 * k⟩, fl, pm, sh, rl, ty⟩ =
        (.ok true, ⟨⟨dat, 8 * k + 1⟩, fl, pm, sh, rl, ty⟩) := by
      unfold read_bit
      rw [if_pos (by simp; omega)]
      simp [hbit]
    simp only [read_str_len]
    rw [bind_ok (hAligned _ k rfl)]
    rw [bind_ok (show getFlags ⟨⟨dat, 8 * k⟩, fl, pm, sh, rl, ty⟩ =
      (.ok fl, ⟨⟨dat, 8 * k⟩, fl, pm, sh, rl, ty⟩) from rfl)]
    rw [hf, if_pos rfl]
    unfold read_compact_length
    rw [bind_ok hread]
    simp only [if_true]
    unfold read_value_bits
    rw [if_pos (by simp; omega)]
    simp only [Prod.mk.injEq, DOut.ok.injEq]
    constructor
    · exact hval
    · simp
  · intro s k hf hpos hk
    obtain ⟨⟨dat, pos⟩, fl, pm, sh, rl, ty⟩ := s
    simp only at hpos hk hf
    subst hpos
    simp only [read_str_len]
    rw [bind_ok (hAligned _ k rfl)]
    rw [bind_ok (show getFlags ⟨⟨dat, 8 * k⟩, fl, pm, sh, rl, ty⟩ =
      (.ok fl, ⟨⟨dat, 8 * k⟩, fl, pm, sh, rl, ty⟩) from rfl)]
    rw [hf]
    simp only [Bool.false_eq_true, if_false]
    unfold load_u16 load_le
    dsimp only
    rw [alignUp_mul8]
    rw [if_pos (by omega)]
    rw [Nat.mul_div_cancel_left _ (by norm_num : (0:Nat) < 8)]
  · intro s k hf hpos hk
    obtain ⟨⟨dat, pos⟩, fl, pm, sh, rl, ty⟩ := s
    simp only at hpos hk hf
    subst hpos
    simp only [read_seq_len]
    rw [bind_ok (hAligned _ k rfl)]
    rw [bind_ok (show getFlags ⟨⟨dat, 8 * k⟩, fl, pm, sh, rl, ty⟩ =
      (.ok fl, ⟨⟨dat, 8 * k⟩, fl, pm, sh, rl, ty⟩) from rfl)]
    rw [hf]
    simp only [Bool.false_eq_true, if_false]
    unfold load_u32 load_le
    dsimp only
    rw [alignUp_mul8]
    rw [if_pos (by omega)]
    rw [Nat.mul_div_cancel_left _ (by norm_num : (0:Nat) < 8)]

/-- C5 witness: under `COMPACT_LENGTH_PREFIXES`, the one-byte encoding
`0xFE` decodes to length 127 consuming one byte, and the four-byte
little-endian encoding of `2·128 + 1 = 257` decodes to length 128
consuming four bytes. -/
theorem C5_length_codecs_witness :
    read_str_len (mkState [254] COMPACT_LENGTH_PREFIXES 9 emptyTypes) =
      (.ok 127,
       { mkState [254] COMPACT_LENGTH_PREFIXES 9 emptyTypes with
           reader := { data := [254], pos := 8 } }) ∧
    read_str_len (mkState [1, 1, 0, 0] COMPACT_LENGTH_PREFIXES 9 emptyTypes) =
      (.ok 128,
       { mkState [1, 1, 0, 0] COMPACT_LENGTH_PREFIXES 9 emptyTypes with
           reader := { data := [1, 1, 0, 0], pos := 32 } }) :=
  ⟨C5_length_codecs.2.2.2.1 (mkState [254] COMPACT_LENGTH_PREFIXES 9 emptyTypes)
     0 127 rfl rfl (by decide) (by decide) (by decide),
   C5_length_codecs.2.2.2.2.1 (mkState [1, 1, 0, 0] COMPACT_LENGTH_PREFIXES 9 emptyTypes)
     0 128 rfl rfl (by decide) (by decide)⟩

/-! ## C7: sign extension of bit-integers. -/

theorem and_one_shl_ne (v m : Nat) : (v &&& (1 <<< m) != 0) = v.testBit m := by
  rw [Nat.one_shiftLeft, Nat.and_two_pow]
  rcases h : v.testBit m with _ | _ <;> simp [h]

theorem ge_of_testBit (v m : Nat) (h : v.testBit m = true) : 2 ^ m ≤ v := by
  rw [Nat.testBit_to_div_mod, decide_eq_true_iff] at h
  have h2 : 1 ≤ v / 2 ^ m := by
    rcases Nat.eq_zero_or_pos (v / 2 ^ m) with hz | hp
    · rw [hz] at h; simp at h
    · exact hp
  exact (Nat.one_le_div_iff (Nat.pos_pow_of_pos m (by norm_num))).mp h2

theorem lt_pow_of_testBit_false (v n : Nat) (h1 : v < 2 ^ (n + 1))
    (h2 : v.testBit n = false) : v < 2 ^ n := by
  rw [Nat.testBit_to_div_mod, decide_eq_false_iff_not] at h2
  have h3 : v / 2 ^ n < 2 := by
    apply (Nat.div_lt_iff_lt_mul (Nat.pos_pow_of_pos n (by norm_num))).mpr
    calc v < 2 ^ (n + 1) := h1
      _ = 2 * 2 ^ n := by ring
  have h4 : v / 2 ^ n = 0 := by
    generalize hq : v / 2 ^ n = q at h2 h3 ⊢
    omega
  exact (Nat.div_eq_zero_iff (Nat.pos_pow_of_pos n (by norm_num))).mp h4

theorem u64NotShl_eq (n : Nat) (h : n ≤ 64) : u64NotShl n = 2 ^ 64 - 2 ^ n := by
  unfold u64NotShl
  rw [Nat.shiftLeft_eq]
  have e1 : (2:Nat) ^ n ≤ 2 ^ 64 := Nat.pow_le_pow_right (by norm_num) h
  have e2 : (1:Nat) ≤ 2 ^ n := Nat.one_le_two_pow
  have h1 : (2 ^ 64 - 1) * 2 ^ n = (2 ^ n - 1) * 2 ^ 64 + (2 ^ 64 - 2 ^ n) := by
    rw [Nat.sub_mul, Nat.sub_mul, one_mul, one_mul]
    have hm : (2:Nat) ^ 64 * 2 ^ n = 2 ^ n * 2 ^ 64 := mul_comm _ _
    have h3 : (2:Nat) ^ 64 ≤ 2 ^ n * 2 ^ 64 := Nat.le_mul_of_pos_left _ (by positivity)
    have h4 : (2:Nat) ^ n ≤ 2 ^ n * 2 ^ 64 := Nat.le_mul_of_pos_right _ (by positivity)
    omega
  rw [h1, add_comm, Nat.add_mul_mod_self_right, Nat.mod_eq_of_lt (by omega)]

theorem mask_factor (n : Nat) (h : n ≤ 64) :
    2 ^ 64 - 2 ^ n = 2 ^ n * (2 ^ (64 - n) - 1) := by
  rw [Nat.mul_sub, Nat.mul_one, ← pow_add]
  rw [show n + (64 - n) = 64 from by omega]

/-- Sign-extension specification of `deserialize_signed_bits` for widths
`1 ≤ n ≤ 63`. -/
theorem deserialize_signed_bits_spec (n : Nat) (hn1 : 1 ≤ n) (hn2 : n ≤ 63)
    (s : DeState) (v : Nat) (s' : DeState)
    (hv : deserialize_bits n s = (.ok v, s')) :
    v < 2 ^ n ∧
    ∃ x : Int, deserialize_signed_bits n s = (.ok x, s') ∧
      (v.testBit (n - 1) = true →
        x = (v : Int) - 2 ^ n ∧
        (∀ i, n ≤ i → i < 64 → ((x % 2 ^ 64).toNat).testBit i = true) ∧
        (∀ i, i < n → ((x % 2 ^ 64).toNat).testBit i = v.testBit i)) ∧
      (v.testBit (n - 1) = false → x = (v : Int)) ∧
      (-(2 ^ (n - 1) : Int) ≤ x ∧ x < 2 ^ (n - 1)) := by
  have hvlt : v < 2 ^ n := by
    unfold deserialize_bits read_value_bits at hv
    split at hv
    · simp only [Prod.mk.injEq, DOut.ok.injEq] at hv
      rw [← hv.1]
      exact bitsVal_lt _ _ _
    · simp at hv
  refine ⟨hvlt, ?_⟩
  have hn63 : (2:Nat) ^ n ≤ 2 ^ 63 := Nat.pow_le_pow_right (by norm_num) hn2
  unfold deserialize_signed_bits
  rw [bind_ok hv, and_one_shl_ne]
  rcases Bool.eq_false_or_eq_true (v.testBit (n - 1)) with htb | htb
  case inr =>
    rw [htb, if_neg (by simp), pure_apply]
    refine ⟨toSigned64 v, rfl, ?_, ?_, ?_⟩
    · intro hcon; simp at hcon
    · intro _
      unfold toSigned64 toSigned
      rw [if_pos (by norm_num; omega)]
    · have hx : toSigned64 v = (v : Int) := by
        unfold toSigned64 toSigned
        rw [if_pos (by norm_num; omega)]
      rw [hx]
      constructor
      · have : (0:Int) ≤ (v : Int) := by positivity
        have : (0:Int) < 2 ^ (n - 1) := by positivity
        omega
      · have hlt : v < 2 ^ (n - 1) := by
          apply lt_pow_of_testBit_false v (n - 1)
          · rw [show n - 1 + 1 = n from by omega]
            exact hvlt
          · exact htb
        exact_mod_cast hlt
  case inl =>
    rw [htb, if_pos rfl, pure_apply]
    have hmask := u64NotShl_eq n (by omega)
    have hfac := mask_factor n (by omega)
    have hw : v ||| u64NotShl n = 2 ^ 64 - 2 ^ n + v := by
      rw [hmask, hfac, Nat.lor_comm, ← Nat.mul_add_lt_is_or hvlt, ← hfac]
    have hwlt : 2 ^ 64 - 2 ^ n + v < 2 ^ 64 := by
      have e1 : (2:Nat) ^ n ≤ 2 ^ 64 := Nat.pow_le_pow_right (by norm_num) (by omega)
      omega
    have hmod : (v ||| u64NotShl n) % 2 ^ 64 = 2 ^ 64 - 2 ^ n + v := by
      rw [hw]
      exact Nat.mod_eq_of_lt hwlt
    have hwge : 2 ^ 63 ≤ 2 ^ 64 - 2 ^ n + v := by
      have e3 : (2:Nat) ^ 63 ≤ 2 ^ 64 := by norm_num
      omega
    have hx : toSigned64 ((v ||| u64NotShl n) % 2 ^ 64) = (v : Int) - 2 ^ n := by
      rw [hmod]
      unfold toSigned64 toSigned
      rw [if_neg (by norm_num; omega)]
      have e2 : (2:Nat) ^ n ≤ 18446744073709551616 :=
        le_trans (Nat.pow_le_pow_right (by norm_num) (by omega : n ≤ 64)) (by norm_num)
      push_cast [Nat.cast_sub e2]
      ring
    refine ⟨toSigned64 ((v ||| u64NotShl n) % 2 ^ 64), rfl, ?_, ?_, ?_⟩
    · intro _
      refine ⟨hx, ?_, ?_⟩
      · intro i hi1 hi2
        have hxm : ((toSigned64 ((v ||| u64NotShl n) % 2 ^ 64) % 2 ^ 64).toNat) =
            2 ^ 64 - 2 ^ n + v := by
          rw [hx]
          have e1 : (2:Nat) ^ n ≤ 2 ^ 64 := Nat.pow_le_pow_right (by norm_num) (by omega)
          have hc : ((2 ^ n : Nat) : Int) = (2:Int) ^ n := by push_cast; ring
          omega
        rw [hxm]
        have hwor : 2 ^ 64 - 2 ^ n + v = (2 ^ (64 - n) - 1) <<< n ||| v := by
          rw [Nat.shiftLeft_eq, ← mul_comm ((2:Nat) ^ n), ← hfac,
            hfac, Nat.mul_add_lt_is_or hvlt, ← hfac]
        rw [hwor, Nat.testBit_lor, Nat.testBit_shiftLeft, Nat.testBit_two_pow_sub_one]
        simp [hi1, show i - n < 64 - n from by omega]
      · intro i hi
        have hxm : ((toSigned64 ((v ||| u64NotShl n) % 2 ^ 64) % 2 ^ 64).toNat) =
            2 ^ 64 - 2 ^ n + v := by
          rw [hx]
          have e1 : (2:Nat) ^ n ≤ 2 ^ 64 := Nat.pow_le_pow_right (by norm_num) (by omega)
          have hc : ((2 ^ n : Nat) : Int) = (2:Int) ^ n := by push_cast; ring
          omega
        rw [hxm]
        have hwor : 2 ^ 64 - 2 ^ n + v = (2 ^ (64 - n) - 1) <<< n ||| v := by
          rw [Nat.shiftLeft_eq, ← mul_comm ((2:Nat) ^ n), ← hfac,
            hfac, Nat.mul_add_lt_is_or hvlt, ← hfac]
        rw [hwor, Nat.testBit_lor, Nat.testBit_shiftLeft]
        simp [show ¬(n ≤ i) from by omega]
    · intro hcon; simp at hcon
    · rw [hx]
      have hge := ge_of_testBit v (n - 1) htb
      have hps : (2:Nat) ^ n = 2 ^ (n - 1) * 2 := by
        rw [← pow_succ]
        congr 1
        omega
      constructor
      · have c1 : ((2:Nat) ^ (n - 1) : Int) ≤ (v : Int) := by exact_mod_cast hge
        have c2 : ((2:Nat) ^ n : Int) = ((2:Nat) ^ (n - 1) : Int) * 2 := by
          exact_mod_cast hps
        push_cast at c1 c2 ⊢
        omega
      · have c1 : ((v : Int)) < ((2:Nat) ^ n : Int) := by exact_mod_cast hvlt
        have c3 : (0:Int) < 2 ^ (n - 1) := by positivity
        push_cast at c1 ⊢
        omega

/-- C7 (confirmed): for every bit-integer width used by the dispatcher
(`bi2`…`bi7` and `s24`), the decoded value is the two's-complement
interpretation of the raw bits: if bit `n-1` is set, the 64-bit pattern
of the result has all high `64-n` bits set and its low `n` bits equal the
raw value (numerically the result is `v - 2^n`); otherwise the result is
the raw value; the result always lies in `[-2^(n-1), 2^(n-1) - 1]`. -/
theorem C7_signed_bits_twos_complement (n : Nat)
    (hn : n = 2 ∨ n = 3 ∨ n = 4 ∨ n = 5 ∨ n = 6 ∨ n = 7 ∨ n = 24)
    (s : DeState) (v : Nat) (s' : DeState)
    (hv : deserialize_bits n s = (.ok v, s')) :
    v < 2 ^ n ∧
    ∃ x : Int, deserialize_signed_bits n s = (.ok x, s') ∧
      (v.testBit (n - 1) = true →
        x = (v : Int) - 2 ^ n ∧
        (∀ i, n ≤ i → i < 64 → ((x % 2 ^ 64).toNat).testBit i = true) ∧
        (∀ i, i < n → ((x % 2 ^ 64).toNat).testBit i = v.testBit i)) ∧
      (v.testBit (n - 1) = false → x = (v : Int)) ∧
      (-(2 ^ (n - 1) : Int) ≤ x ∧ x < 2 ^ (n - 1)) := by
  have hb : 1 ≤ n ∧ n ≤ 63 := by
    rcases hn with rfl | rfl | rfl | rfl | rfl | rfl | rfl <;> norm_num
  exact deserialize_signed_bits_spec n hb.1 hb.2 s v s' hv

/-- C7 witness: `bi3` on the raw bits `101` (value 5, sign bit set)
decodes to `-3 = 5 - 2^3`, inside `[-4, 3]`. -/
theorem C7_signed_bits_twos_complement_witness :
    5 < 2 ^ 3 ∧
    ∃ x : Int, deserialize_signed_bits 3 (mkState [5] 0 9 emptyTypes) =
        (.ok x, { mkState [5] 0 9 emptyTypes with reader := { data := [5], pos := 3 } }) ∧
      ((5:Nat).testBit (3 - 1) = true →
        x = ((5:Nat) : Int) - 2 ^ 3 ∧
        (∀ i, 3 ≤ i → i < 64 → ((x % 2 ^ 64).toNat).testBit i = true) ∧
        (∀ i, i < 3 → ((x % 2 ^ 64).toNat).testBit i = (5:Nat).testBit i)) ∧
      ((5:Nat).testBit (3 - 1) = false → x = ((5:Nat) : Int)) ∧
      (-(2 ^ (3 - 1) : Int) ≤ x ∧ x < 2 ^ (3 - 1)) :=
  C7_signed_bits_twos_complement 3 (by norm_num) (mkState [5] 0 9 emptyTypes) 5
    { mkState [5] 0 9 emptyTypes with reader := { data := [5], pos := 3 } } rfl

/-! ## C8: generic type-argument extraction for Size / Point / Rect. -/

theorem splitOnce_append_cons (c : Char) (xs ys : List Char) (h : c ∉ xs) :
    splitOnce c (xs ++ c :: ys) = some (xs, ys) := by
  induction xs with
  | nil => simp [splitOnce]
  | cons x xs ih =>
    rw [List.mem_cons, not_or] at h
    simp only [List.cons_append, splitOnce, List.append_eq]
    rw [if_neg (fun hc => h.1 hc.symm), ih h.2]
    rfl

theorem splitOnce_eq_some (c : Char) : ∀ (ty a b : List Char),
    splitOnce c ty = some (a, b) → ty = a ++ c :: b := by
  intro ty
  induction ty with
  | nil => intro a b h; simp [splitOnce] at h
  | cons x xs ih =>
    intro a b h
    simp only [splitOnce] at h
    by_cases hx : x = c
    · rw [if_pos hx] at h
      simp only [Option.some.injEq, Prod.mk.injEq] at h
      rw [← h.1, ← h.2, hx]
      rfl
    · rw [if_neg hx] at h
      cases hsp : splitOnce c xs with
      | none => rw [hsp] at h; exact Option.noConfusion h
      | some p =>
        rw [hsp] at h
        simp only [Option.map_some', Option.some.injEq, Prod.mk.injEq] at h
        have e := ih p.1 p.2 (by rw [hsp])
        rw [← h.1, ← h.2, List.cons_append, ← e]

theorem rsplitOnce_eq_some (c : Char) (s g d : List Char)
    (h : rsplitOnce c s = some (g, d)) : s = g ++ c :: d := by
  unfold rsplitOnce at h
  cases hsp : splitOnce c s.reverse with
  | none => rw [hsp] at h; exact Option.noConfusion h
  | some p =>
    rw [hsp] at h
    simp only [Option.map_some', Option.some.injEq, Prod.mk.injEq] at h
    have e := splitOnce_eq_some c s.reverse p.1 p.2 (by rw [hsp])
    have hs : s = (p.1 ++ c :: p.2).reverse := by rw [← e, List.reverse_reverse]
    rw [hs, List.reverse_append, List.reverse_cons, ← h.1, ← h.2]
    simp

theorem rsplitOnce_append (c : Char) (g d : List Char) (h : c ∉ d) :
    rsplitOnce c (g ++ c :: d) = some (g, d) := by
  unfold rsplitOnce
  have hr : (g ++ c :: d).reverse = d.reverse ++ c :: g.reverse := by
    rw [List.reverse_append, List.reverse_cons]
    simp
  rw [hr, splitOnce_append_cons c d.reverse g.reverse (by simp [h])]
  simp

theorem extract_of_decomp (a g d : List Char) (ha : '<' ∉ a) (hd : '>' ∉ d) :
    extract_type_argument (a ++ '<' :: (g ++ '>' :: d)) = some g := by
  unfold extract_type_argument
  rw [splitOnce_append_cons '<' a (g ++ '>' :: d) ha]
  simp [rsplitOnce_append '>' g d hd]

theorem extract_eq_some_decomp (ty g : List Char)
    (h : extract_type_argument ty = some g) :
    ∃ a d, ty = a ++ '<' :: (g ++ '>' :: d) := by
  unfold extract_type_argument at h
  cases h1 : splitOnce '<' ty with
  | none => rw [h1] at h; exact Option.noConfusion h
  | some p =>
    rw [h1] at h
    cases h2 : rsplitOnce '>' p.2 with
    | none => simp [h2] at h
    | some q =>
      simp [h2] at h
      refine ⟨p.1, q.2, ?_⟩
      have e1 := splitOnce_eq_some '<' ty p.1 p.2 (by rw [h1])
      have e2 := rsplitOnce_eq_some '>' p.2 q.1 q.2 (by rw [h2])
      rw [e1, e2, h]

theorem extract_eq_none_of_no_decomp (ty : List Char)
    (h : ¬∃ a b d, ty = a ++ '<' :: (b ++ '>' :: d)) :
    extract_type_argument ty = none := by
  cases hx : extract_type_argument ty with
  | none => rfl
  | some g =>
    obtain ⟨a, d, hd⟩ := extract_eq_some_decomp ty g hx
    exact absurd ⟨a, g, d, hd⟩ h

theorem simple_size_arm (fuel : Nat) (rest : List Char) :
    deserialize_simple_data (fuel + 1) ("class Size".data ++ rest) =
      ((match extract_type_argument ("class Size".data ++ rest) with
      | some g => size_decode fuel g
      | none => fun s => (.panicked, s)) : DeM Value) := by
  simp only [deserialize_simple_data]
  norm_num +decide [List.isPrefixOf]

theorem simple_point_arm (fuel : Nat) (rest : List Char) :
    deserialize_simple_data (fuel + 1) ("class Point".data ++ rest) =
      ((match extract_type_argument ("class Point".data ++ rest) with
      | some g => point_decode fuel g
      | none => fun s => (.panicked, s)) : DeM Value) := by
  simp only [deserialize_simple_data]
  norm_num +decide [List.isPrefixOf]

theorem simple_rect_arm (fuel : Nat) (rest : List Char) :
    deserialize_simple_data (fuel + 1) ("class Rect".data ++ rest) =
      ((match extract_type_argument ("class Rect".data ++ rest) with
      | some g => rect_decode fuel g
      | none => fun s => (.panicked, s)) : DeM Value) := by
  simp only [deserialize_simple_data]
  norm_num +decide [List.isPrefixOf]

/-- C8 (confirmed): for a type name prefixed by `class Size`, `class Point`
or `class Rect`, if the name admits no decomposition around a `<` followed
by a later `>`, `deserialize_simple_data` panics (the `unwrap` of `None`)
without touching the state, rather than returning `NotSimple` or any other
recoverable error; and whenever the name does decompose as
`a ++ '<' :: (g ++ '>' :: d)` with `'<' ∉ a` (first `<`) and `'>' ∉ d`
(last `>`), the extracted argument is exactly `g` and the arm proceeds as
`size_decode` / `point_decode` / `rect_decode` on `g` (the recursive
element decodes of the source). -/
theorem C8_generic_type_argument (fuel : Nat) (ty : List Char)
    (hpre : ("class Size".data).isPrefixOf ty = true ∨
            ("class Point".data).isPrefixOf ty = true ∨
            ("class Rect".data).isPrefixOf ty = true) :
    ((¬∃ a b d, ty = a ++ '<' :: (b ++ '>' :: d)) →
      ∀ s, deserialize_simple_data (fuel + 1) ty s = (.panicked, s)) ∧
    (∀ a g d, '<' ∉ a → '>' ∉ d → ty = a ++ '<' :: (g ++ '>' :: d) →
      extract_type_argument ty = some g ∧
      (("class Size".data).isPrefixOf ty = true →
        deserialize_simple_data (fuel + 1) ty = size_decode fuel g) ∧
      (("class Point".data).isPrefixOf ty = true →
        deserialize_simple_data (fuel + 1) ty = point_decode fuel g) ∧
      (("class Rect".data).isPrefixOf ty = true →
        deserialize_simple_data (fuel + 1) ty = rect_decode fuel g)) := by
  constructor
  · intro hno s
    have hnone : extract_type_argument ty = none := extract_eq_none_of_no_decomp ty hno
    rcases hpre with hp | hp | hp
    · obtain ⟨rest, hrest⟩ := List.isPrefixOf_iff_prefix.mp hp
      rw [← hrest] at hnone ⊢
      rw [simple_size_arm fuel rest, hnone]
    · obtain ⟨rest, hrest⟩ := List.isPrefixOf_iff_prefix.mp hp
      rw [← hrest] at hnone ⊢
      rw [simple_point_arm fuel rest, hnone]
    · obtain ⟨rest, hrest⟩ := List.isPrefixOf_iff_prefix.mp hp
      rw [← hrest] at hnone ⊢
      rw [simple_rect_arm fuel rest, hnone]
  · intro a g d ha hd hdec
    have hsome : extract_type_argument ty = some g := by
      rw [hdec]
      exact extract_of_decomp a g d ha hd
    refine ⟨hsome, ?_, ?_, ?_⟩
    · intro hp
      obtain ⟨rest, hrest⟩ := List.isPrefixOf_iff_prefix.mp hp
      rw [← hrest] at hsome ⊢
      rw [simple_size_arm fuel rest, hsome]
    · intro hp
      obtain ⟨rest, hrest⟩ := List.isPrefixOf_iff_prefix.mp hp
      rw [← hrest] at hsome ⊢
      rw [simple_point_arm fuel rest, hsome]
    · intro hp
      obtain ⟨rest, hrest⟩ := List.isPrefixOf_iff_prefix.mp hp
      rw [← hrest] at hsome ⊢
      rw [simple_rect_arm fuel rest, hsome]

/-- C8 witness: the full specification instantiated at the concrete name
`class Size<int>`, whose prefix hypothesis holds by computation. -/
theorem C8_generic_type_argument_witness :
    (("class Size".data).isPrefixOf ("class Size<int>".data) = true ∨
     ("class Point".data).isPrefixOf ("class Size<int>".data) = true ∨
     ("class Rect".data).isPrefixOf ("class Size<int>".data) = true) ∧
    (((¬∃ a b d, "class Size<int>".data = a ++ '<' :: (b ++ '>' :: d)) →
      ∀ s, deserialize_simple_data (1 + 1) "class Size<int>".data s = (.panicked, s)) ∧
     (∀ a g d, '<' ∉ a → '>' ∉ d →
        "class Size<int>".data = a ++ '<' :: (g ++ '>' :: d) →
      extract_type_argument "class Size<int>".data = some g ∧
      (("class Size".data).isPrefixOf ("class Size<int>".data) = true →
        deserialize_simple_data (1 + 1) "class Size<int>".data = size_decode 1 g) ∧
      (("class Point".data).isPrefixOf ("class Size<int>".data) = true →
        deserialize_simple_data (1 + 1) "class Size<int>".data = point_decode 1 g) ∧
      (("class Rect".data).isPrefixOf ("class Size<int>".data) = true →
        deserialize_simple_data (1 + 1) "class Size<int>".data = rect_decode 1 g))) :=
  ⟨Or.inl (by decide),
   C8_generic_type_argument 1 "class Size<int>".data (Or.inl (by decide))⟩

end Kobold
